/-
Verification of the incremental reconciliation engine of the
ecommerce-full-ETL-process repository (src/ETL/etl.py, src/ETL/validation.py,
src/OLAP/scripts/create_db.py).

Modelling conventions:
* Python strings are Lean `String`s; nullable TEXT columns and nullable Python
  arguments are `Option String`; SQLite REAL values are modelled as exact
  rationals `ℚ` (only order comparisons and exact arithmetic on them matter to
  the verified claims); INTEGER columns are `Int`.
* Calendar dates flowing through the warehouse layer (start_date, end_date,
  dim_date keys, transaction dates after validation) are modelled as integer
  day numbers (`Day := Int`).  The code stores dates as `YYYY-MM-DD` strings
  and `YYYYMMDD` integer keys; both representations are strictly monotone
  images of the calendar date, so every SQL comparison (`start_date <= d`,
  `ORDER BY date_id DESC`) and the `- timedelta(days=1)` arithmetic is
  faithfully represented by `≤`, `<` and `- 1` on day numbers.
* The validation layer, where the textual shape of a date matters
  (`datetime.strptime`, `datetime.fromisoformat`), is modelled character by
  character over `List Char`, following CPython's `_strptime` field regexes
  (`%Y` is exactly four digits, `%m`/`%d` are one or two digits in range) and
  the calendar check performed by the `datetime` constructor.
* `sqlite3` rows are records; a table is the list of its rows in rowid
  (insertion) order, which is the order in which an unordered scan such as
  `fetchone()` visits them.  The `fact_transactions` composite primary key
  `(transaction_id, product_sk)` from src/OLAP/scripts/create_db.py is
  modelled by an explicit key lookup before each insert; a hit takes the
  `sqlite3.IntegrityError` branch of the source.
* Python `str.lower` and `str.strip` are modelled on the ASCII range, which
  covers every string the claims mention.
-/
import Mathlib


namespace Ecom

/-! ### Character and string helpers -/

/-- Split a character list at every occurrence of `c` (model of
`str.split(c)` for a single-character separator). -/
def splitChAux (c : Char) : List Char → List Char → List (List Char)
  | [], acc => [acc.reverse]
  | x :: xs, acc =>
    if x = c then acc.reverse :: splitChAux c xs []
    else splitChAux c xs (x :: acc)

def splitCh (c : Char) (l : List Char) : List (List Char) :=
  splitChAux c l []

/-- ASCII decimal digit test (model of the `\d` character class used by
CPython's strptime regexes and of `str.isdigit` on ASCII input). -/
def isDig (c : Char) : Bool := decide ('0' ≤ c) && decide (c ≤ '9')

def allDigits (l : List Char) : Bool := l.all isDig

def digitsVal (l : List Char) : Nat :=
  l.foldl (fun n c => n * 10 + (c.toNat - 48)) 0

/-- ASCII lower-casing (model of Python `str.lower` on the ASCII range). -/
def lowerChar (c : Char) : Char :=
  if 65 ≤ c.toNat ∧ c.toNat ≤ 90 then Char.ofNat (c.toNat + 32) else c

def lowerStr (s : String) : String := ⟨s.toList.map lowerChar⟩

/-- Whitespace characters stripped by Python `str.strip()` and matched by the
`\s` class of the email regex (ASCII range). -/
def isPySpace (c : Char) : Bool :=
  c = ' ' || c = '\t' || c = '\n' || c = '\r' || c = '\x0b' || c = '\x0c'

def stripStr (s : String) : String :=
  ⟨((s.toList.dropWhile isPySpace).reverse.dropWhile isPySpace).reverse⟩

def hasChar (c : Char) (s : String) : Bool := s.toList.contains c

/-! ### Calendar dates and the transaction date parser -/

structure CalDate where
  y : Nat
  m : Nat
  d : Nat
deriving DecidableEq

def isLeap (y : Nat) : Bool :=
  y % 4 = 0 && (y % 100 ≠ 0 || y % 400 = 0)

def daysInMonth (y m : Nat) : Nat :=
  if m = 2 then (if isLeap y then 29 else 28)
  else if m = 4 ∨ m = 6 ∨ m = 9 ∨ m = 11 then 30
  else 31

/-- Validity check performed by the `datetime.date` constructor
(`MINYEAR = 1`, month in range, day in range for the month). -/
def validDate (y m d : Nat) : Bool :=
  1 ≤ y && 1 ≤ m && m ≤ 12 && 1 ≤ d && d ≤ daysInMonth y m

/-- Model of CPython's strptime `%Y` field: exactly four decimal digits. -/
def yearField (l : List Char) : Option Nat :=
  if l.length = 4 && allDigits l then some (digitsVal l) else none

/-- Model of CPython's strptime `%m`/`%d` fields: one or two decimal digits
whose value lies in `[1, hi]` (the regexes `1[0-2]|0[1-9]|[1-9]` and
`3[01]|[12]\d|0[1-9]|[1-9]` are exactly the 1-2 digit numerals in range). -/
def monthDayField (hi : Nat) (l : List Char) : Option Nat :=
  if (l.length = 1 || l.length = 2) && allDigits l then
    let v := digitsVal l
    if 1 ≤ v && v ≤ hi then some v else none
  else none

/-- Model of `datetime.strptime(s, "%Y<sep>%m<sep>%d").date()`: the three
fields separated by the literal separator must consume the whole string, and
the resulting triple must be a valid calendar date. -/
def strptimeYMD (sep : Char) (s : String) : Option CalDate :=
  match splitCh sep s.toList with
  | [ys, ms, ds] =>
    match yearField ys, monthDayField 12 ms, monthDayField 31 ds with
    | some y, some m, some d => if validDate y m d then some ⟨y, m, d⟩ else none
    | _, _, _ => none
  | _ => none

/-- Model of `datetime.strptime(s, "%Y%m%d").date()` on an 8-digit string:
four digits of year, two of month, two of day, then the calendar check. -/
def strptimeCompact (s : String) : Option CalDate :=
  let l := s.toList
  if l.length = 8 && allDigits l then
    let y := digitsVal (l.take 4)
    let m := digitsVal ((l.drop 4).take 2)
    let d := digitsVal (l.drop 6)
    if validDate y m d then some ⟨y, m, d⟩ else none
  else none

/-- Model of `datetime.fromisoformat` applied to the portion of the string
before the first `T` (the documented `YYYY-MM-DD` date form: ten characters,
zero padded, valid). -/
def fromIsoDatePart (s : String) : Option CalDate :=
  match (splitCh 'T' s.toList).headD [] with
  | [y1, y2, y3, y4, s1, m1, m2, s2, d1, d2] =>
    if s1 = '-' && s2 = '-' &&
        allDigits [y1, y2, y3, y4] && allDigits [m1, m2] && allDigits [d1, d2] then
      let y := digitsVal [y1, y2, y3, y4]
      let m := digitsVal [m1, m2]
      let d := digitsVal [d1, d2]
      if validDate y m d then some ⟨y, m, d⟩ else none
    else none
  | _ => none

/-- The transaction date parser of `validate_transactions`
(src/ETL/etl.py lines 249-265) and `DataValidator._parse_date`
(src/ETL/validation.py lines 89-103): try ISO `%Y-%m-%d`; on failure select a
single fallback by content — `%Y/%m/%d` when the string contains a slash,
else the pre-`T` ISO date when it contains a `T`, else `%Y%m%d` when it is
eight digits — and fail if the selected fallback fails. -/
def parse_date (s : String) : Option CalDate :=
  match strptimeYMD '-' s with
  | some d => some d
  | none =>
    if hasChar '/' s then strptimeYMD '/' s
    else if hasChar 'T' s then fromIsoDatePart s
    else if s.toList.length = 8 && allDigits s.toList then strptimeCompact s
    else none

/-- Modelled from the spec (claim C7 wording): the four formats tried in
priority order with the first successful parse winning.  Used only to compare
the claimed parsing discipline with the one the source implements. -/
def parse_date_spec (s : String) : Option CalDate :=
  (strptimeYMD '-' s).orElse fun _ =>
  (strptimeYMD '/' s).orElse fun _ =>
  (fromIsoDatePart s).orElse fun _ =>
  strptimeCompact s

def pad2 (n : Nat) : String := if n < 10 then "0" ++ toString n else toString n

def pad4 (n : Nat) : String :=
  if n < 10 then "000" ++ toString n
  else if n < 100 then "00" ++ toString n
  else if n < 1000 then "0" ++ toString n
  else toString n

/-- Model of `parsed_date.strftime("%Y-%m-%d")` (canonical rewrite of an
accepted transaction date). -/
def formatYMD (c : CalDate) : String := pad4 c.y ++ "-" ++ pad2 c.m ++ "-" ++ pad2 c.d

/-! ### Audit log, counters and data-quality metrics -/

structure LogEntry where
  entity : String
  table : String
  recordId : String
  errorType : String
  message : String
  severity : String
deriving DecidableEq

/-- The module level mutable state of src/ETL/etl.py: the rows inserted into
`etl_error_log`, the `ERROR_COUNT` / `WARNING_COUNT` globals and the
`DQ_METRICS` dictionary. -/
structure LogState where
  entries : List LogEntry
  errors : Nat
  warnings : Nat
  dq : List (String × Nat)
deriving DecidableEq

/-- The `DQ_METRICS` dictionary literal of src/ETL/etl.py lines 12-25. -/
def dqInit : List (String × Nat) :=
  [("orphan_user_tx", 0), ("orphan_product_tx", 0), ("qty_zero_tx", 0),
   ("qty_negative_tx", 0), ("price_ge_10000_product", 0), ("price_mismatch_tx", 0),
   ("invalid_payment_type_tx", 0), ("invalid_status_tx", 0), ("bad_date_format_tx", 0),
   ("duplicate_tx_id", 0), ("invalid_user_records", 0), ("negative_stock_product", 0)]

def dqKeys : List String := dqInit.map Prod.fst

/-- Increment the counter stored under `k`, leaving the dictionary unchanged
when the key is absent: the `if error_type in DQ_METRICS` guard of
`log_error`. -/
def bumpDq (k : String) (l : List (String × Nat)) : List (String × Nat) :=
  l.map fun p => if p.1 = k then (p.1, p.2 + 1) else p

def logState0 : LogState := ⟨[], 0, 0, dqInit⟩

/-- Model of `log_error` (src/ETL/etl.py lines 76-94). -/
def log_error (st : LogState) (entity table recordId errorType message severity : String) :
    LogState :=
  { entries := st.entries ++ [⟨entity, table, recordId, errorType, message, severity⟩]
    errors := if severity = "error" then st.errors + 1 else st.errors
    warnings := if severity = "error" then st.warnings else st.warnings + 1
    dq := bumpDq errorType st.dq }

def countType (st : LogState) (t : String) : Nat :=
  (st.entries.filter (fun e => e.errorType = t)).length

def dqVal (st : LogState) (k : String) : Nat :=
  ((st.dq.find? (fun p => p.1 = k)).map Prod.snd).getD 0

/-! ### Source snapshot records -/

structure SrcUser where
  user_id : Int
  name : Option String
  email : Option String
  join_date : Option Int
deriving DecidableEq

structure SrcProduct where
  product_id : Int
  name : Option String
  category : String
  price : ℚ
  stock : Int
deriving DecidableEq

structure SrcTx where
  tx_id : Int
  date : String
  user_id : Int
  product_id : Int
  quantity : Int
  total_price : ℚ
  payment_type : Option String
  status : Option String
deriving DecidableEq

/-- A validated, normalized transaction (the tuple appended to
`valid_transactions`): the date rewritten to canonical `YYYY-MM-DD`, payment
type and status lower-cased. -/
structure NormTx where
  tx_id : Int
  date : String
  user_id : Int
  product_id : Int
  quantity : Int
  total_price : ℚ
  payment_type : String
  status : String
deriving DecidableEq

/-! ### User validation rules (shared by both validators) -/

/-- Python truthiness plus `name.strip() == ""`: the `not name or
name.strip() == ""` test. -/
def nameBad (n : Option String) : Bool :=
  match n with
  | none => true
  | some s => s = "" || stripStr s = ""

/-- The email regex of both validators:
`^[^\s@]+@[^\s@]+\.[^\s@]+$`.  A string matches iff it splits as
`local @ domain` with exactly one `@`, no whitespace anywhere, a nonempty
local part, and a dot strictly inside the domain (the `[^\s@]+` classes allow
further dots on either side of the chosen one). -/
def emailMatch (s : String) : Bool :=
  match splitCh '@' s.toList with
  | [a, b] =>
    decide (a ≠ []) && a.all (fun c => !isPySpace c) && b.all (fun c => !isPySpace c) &&
      ((b.drop 1).dropLast.contains '.')
  | _ => false

/-- The `not email or not email_pattern.match(email)` test. -/
def emailBad (e : Option String) : Bool :=
  match e with
  | none => true
  | some s => s = "" || !emailMatch s

def joinBad (j : Option Int) : Bool := j.isNone

/-- Number of user validation rules a record fails (used to state claim C4,
which is about error-log cardinality per rejected record). -/
def userFailCount (u : SrcUser) : Nat :=
  (if nameBad u.name then 1 else 0) + (if emailBad u.email then 1 else 0) +
    (if joinBad u.join_date then 1 else 0)

/-! ### validate_users, free-function form (src/ETL/etl.py lines 145-174)

Each failing rule logs and `continue`s: at most one entry per record. -/

def processUserEtl (st : LogState) (u : SrcUser) : LogState × Bool :=
  if nameBad u.name then
    (log_error st "user" "dim_user" (toString u.user_id) "invalid_user"
      ("Empty name for user " ++ toString u.user_id) "error", false)
  else if emailBad u.email then
    (log_error st "user" "dim_user" (toString u.user_id) "invalid_user"
      ("Invalid email for user " ++ toString u.user_id) "error", false)
  else if joinBad u.join_date then
    (log_error st "user" "dim_user" (toString u.user_id) "invalid_user"
      ("NULL join_date for user " ++ toString u.user_id) "error", false)
  else (st, true)

/-- The loop shared by the record validators: process each record in order,
threading the log state, and partition the batch into the accepted and
rejected lists (both produced in input order, as the source's appends do). -/
def partitionLog {ρ : Type} (f : LogState → ρ → LogState × Bool) :
    LogState → List ρ → LogState × List ρ × List ρ
  | st, [] => (st, [], [])
  | st, r :: rs =>
    let p := f st r
    let rest := partitionLog f p.1 rs
    if p.2 then (rest.1, r :: rest.2.1, rest.2.2) else (rest.1, rest.2.1, r :: rest.2.2)

def validate_users (st : LogState) (users : List SrcUser) :
    LogState × List SrcUser × List SrcUser :=
  partitionLog processUserEtl st users

/-! ### DataValidator.validate_users (src/ETL/validation.py lines 31-58)

Rules are evaluated independently; every failing rule logs an entry and the
record is rejected iff any rule failed.  `DataValidator.log_error` only
inserts the `etl_error_log` row: it touches neither the counters nor
`DQ_METRICS`. -/

def dvLogError (st : LogState) (entity table recordId errorType message severity : String) :
    LogState :=
  { st with entries := st.entries ++ [⟨entity, table, recordId, errorType, message, severity⟩] }

def processUserDV (st : LogState) (u : SrcUser) : LogState × Bool :=
  let st1 := if nameBad u.name then
    dvLogError st "user" "users" (toString u.user_id) "invalid_user"
      ("Empty name for user " ++ toString u.user_id) "error" else st
  let st2 := if emailBad u.email then
    dvLogError st1 "user" "users" (toString u.user_id) "invalid_user"
      ("Invalid email for user " ++ toString u.user_id) "error" else st1
  let st3 := if joinBad u.join_date then
    dvLogError st2 "user" "users" (toString u.user_id) "invalid_user"
      ("NULL join_date for user " ++ toString u.user_id) "error" else st2
  (st3, !nameBad u.name && !emailBad u.email && !joinBad u.join_date)

def dv_validate_users (st : LogState) (users : List SrcUser) :
    LogState × List SrcUser × List SrcUser :=
  partitionLog processUserDV st users

/-! ### validate_products (src/ETL/etl.py lines 176-197) -/

def processProductEtl (st : LogState) (p : SrcProduct) : LogState × Bool :=
  if p.price ≥ 10000 then
    (log_error st "product" "dim_product" (toString p.product_id) "price_ge_10000"
      ("Product price ge 10000 for " ++ toString p.product_id) "error", false)
  else if p.stock < 0 then
    (log_error st "product" "dim_product" (toString p.product_id) "negative_stock"
      ("Product has negative stock " ++ toString p.product_id) "error", false)
  else (st, true)

def validate_products (st : LogState) (products : List SrcProduct) :
    LogState × List SrcProduct × List SrcProduct :=
  partitionLog processProductEtl st products

/-! ### validate_transactions (src/ETL/etl.py lines 199-285) -/

def valid_payment_types : List String := ["visa", "mastercard", "wire transfer", "other"]

def valid_statuses : List String := ["success", "failed"]

/-- The reference data handed to `validate_transactions`: the already
validated user and product id sets and the price map built from validated
products. -/
structure TxCtx where
  validUserIds : List Int
  validProductIds : List Int
  productPrices : List (Int × ℚ)
deriving DecidableEq

def priceOf (ctx : TxCtx) (pid : Int) : Option ℚ :=
  (ctx.productPrices.find? (fun q => q.1 = pid)).map Prod.snd

/-- Python `payment_type.lower() if payment_type else ""` (`None` and the
empty string are falsy; lower-casing the empty string is the empty string). -/
def normOpt (s : Option String) : String :=
  match s with
  | none => ""
  | some t => lowerStr t

/-- The guard under which the catalog price-mismatch check — and with it the
division `total_price / quantity` — is reached in `validate_transactions`:
every blocking rule before it passed and the product has a catalog price. -/
def reachesPriceCheck (ctx : TxCtx) (t : SrcTx) : Bool :=
  ctx.validUserIds.contains t.user_id && ctx.validProductIds.contains t.product_id &&
    decide (t.quantity ≠ 0) && !(decide (t.quantity < 0)) &&
    valid_payment_types.contains (normOpt t.payment_type) &&
    valid_statuses.contains (normOpt t.status) &&
    (parse_date t.date).isSome && (priceOf ctx t.product_id).isSome

/-- Per-record body of the `for transaction in transactions` loop: each
blocking rule logs and `continue`s; the price-mismatch and duplicate-id rules
log warnings without rejecting; an accepted record is normalized.  The
running `seen_tx_ids` set is threaded through. -/
def processTxEtl (ctx : TxCtx) (st : LogState) (seen : List Int) (t : SrcTx) :
    LogState × List Int × Option NormTx :=
  if !ctx.validUserIds.contains t.user_id then
    (log_error st "transaction" "fact_transactions" (toString t.tx_id) "orphan_user"
      ("Transaction references non-existent user " ++ toString t.user_id) "error", seen, none)
  else if !ctx.validProductIds.contains t.product_id then
    (log_error st "transaction" "fact_transactions" (toString t.tx_id) "orphan_product"
      ("Transaction references non-existent product " ++ toString t.product_id) "error",
      seen, none)
  else if t.quantity = 0 then
    (log_error st "transaction" "fact_transactions" (toString t.tx_id) "qty_zero"
      "Transaction has zero quantity" "error", seen, none)
  else if t.quantity < 0 then
    (log_error st "transaction" "fact_transactions" (toString t.tx_id) "qty_negative"
      "Transaction has negative quantity" "error", seen, none)
  else if !valid_payment_types.contains (normOpt t.payment_type) then
    (log_error st "transaction" "fact_transactions" (toString t.tx_id) "invalid_payment_type"
      "Transaction has invalid payment_type" "error", seen, none)
  else if !valid_statuses.contains (normOpt t.status) then
    (log_error st "transaction" "fact_transactions" (toString t.tx_id) "invalid_status"
      "Transaction has invalid status" "error", seen, none)
  else
    match parse_date t.date with
    | none =>
      (log_error st "transaction" "fact_transactions" (toString t.tx_id) "bad_date_format"
        "Transaction has unparseable date" "error", seen, none)
    | some pd =>
      let st1 :=
        match priceOf ctx t.product_id with
        | some expected =>
          if |t.total_price / (t.quantity : ℚ) - expected| > 1 / 100 then
            log_error st "transaction" "fact_transactions" (toString t.tx_id) "price_mismatch"
              "Transaction price mismatch" "warning"
          else st
        | none => st
      let sd :=
        if seen.contains t.tx_id then
          (log_error st1 "transaction" "fact_transactions" (toString t.tx_id) "duplicate_tx_id"
            "Duplicate transaction_id" "warning", seen)
        else (st1, seen ++ [t.tx_id])
      (sd.1, sd.2,
        some ⟨t.tx_id, formatYMD pd, t.user_id, t.product_id, t.quantity, t.total_price,
          normOpt t.payment_type, normOpt t.status⟩)

def validateTxGo (ctx : TxCtx) : LogState → List Int → List SrcTx →
    LogState × List NormTx × List SrcTx
  | st, _, [] => (st, [], [])
  | st, seen, t :: ts =>
    let r := processTxEtl ctx st seen t
    let rest := validateTxGo ctx r.1 r.2.1 ts
    match r.2.2 with
    | some n => (rest.1, n :: rest.2.1, rest.2.2)
    | none => (rest.1, rest.2.1, t :: rest.2.2)

def validate_transactions (ctx : TxCtx) (st : LogState) (txs : List SrcTx) :
    LogState × List NormTx × List SrcTx :=
  validateTxGo ctx st [] txs

/-! ### DataValidator.validate_transactions (src/ETL/validation.py lines 105-176)

Rules accumulate into `is_valid`; the price-mismatch warning is guarded by
`product_id in product_prices and is_valid and quantity > 0`. -/

/-- The guard of the price-mismatch check in the class-based validator:
control reaches the division only under `quantity > 0`. -/
def dvReachesPriceCheck (ctx : TxCtx) (t : SrcTx) : Bool :=
  (priceOf ctx t.product_id).isSome &&
    (ctx.validUserIds.contains t.user_id && ctx.validProductIds.contains t.product_id &&
      decide (t.quantity ≠ 0) && !(decide (t.quantity < 0)) &&
      valid_payment_types.contains (normOpt t.payment_type) &&
      valid_statuses.contains (normOpt t.status) && (parse_date t.date).isSome) &&
    decide (0 < t.quantity)

/-! ### Warehouse layer: SCD2 dimensions

Dates in the warehouse layer are integer day numbers (see the header).
`upsert_dim_user` and `upsert_dim_product` (src/ETL/etl.py lines 311-404)
are the same SCD2 routine applied to two tables; the shared routine is
written once, parametrised by the stored payload, the tracked (compared)
attribute projection, and the start-date anchor of a brand new key (user:
`join_date`, product: the run date). -/

abbrev Day := Int

/-- One row of `dim_user` / `dim_product`: surrogate key (AUTOINCREMENT
primary key), business key, the stored non-key payload, and the SCD2
columns. -/
structure Scd2Row (σ : Type) where
  sk : Nat
  key : Int
  data : σ
  start_date : Day
  end_date : Option Day
  current : Bool
deriving DecidableEq

/-- A dimension table plus the next surrogate key the AUTOINCREMENT column
will assign. -/
structure Scd2State (σ : Type) where
  rows : List (Scd2Row σ)
  nextSk : Nat
deriving DecidableEq

def scd2Empty {σ : Type} : Scd2State σ := ⟨[], 1⟩

/-- The `SELECT ... WHERE key = ? AND current_flag = 1` lookup (`fetchone`
returns the first matching row in rowid order). -/
def findCurrent {σ : Type} (rows : List (Scd2Row σ)) (key : Int) : Option (Scd2Row σ) :=
  rows.find? (fun r => r.key == key && r.current)

/-- The `UPDATE ... SET end_date = ?, current_flag = 0 WHERE sk = ?` step
closing the current version. -/
def closeRow {σ : Type} (sk : Nat) (endDate : Day) (r : Scd2Row σ) : Scd2Row σ :=
  if r.sk = sk then { r with end_date := some endDate, current := false } else r

inductive UpsertClass where
  | inserted
  | updated
  | unchanged
deriving DecidableEq

/-- Body of the upsert loop for one incoming record with business key `key`,
stored payload `data`, change detection on `tracked` and insert-time start
date `anchor` (`today - timedelta(days=1)` is `today - 1`). -/
def scd2Step {σ α : Type} [DecidableEq α] (tracked : σ → α)
    (s : Scd2State σ) (key : Int) (data : σ) (anchor today : Day) :
    Scd2State σ × UpsertClass :=
  match findCurrent s.rows key with
  | none =>
    (⟨s.rows ++ [⟨s.nextSk, key, data, anchor, none, true⟩], s.nextSk + 1⟩, .inserted)
  | some cur =>
    if tracked data ≠ tracked cur.data then
      (⟨(s.rows.map (closeRow cur.sk (today - 1))) ++
          [⟨s.nextSk, key, data, today, none, true⟩], s.nextSk + 1⟩, .updated)
    else (s, .unchanged)

structure UpsertCounts where
  inserted : Nat
  updated : Nat
  unchanged : Nat
deriving DecidableEq

def bumpClass (c : UpsertCounts) : UpsertClass → UpsertCounts
  | .inserted => { c with inserted := c.inserted + 1 }
  | .updated => { c with updated := c.updated + 1 }
  | .unchanged => { c with unchanged := c.unchanged + 1 }

def scd2Upsert {ρ σ α : Type} [DecidableEq α] (key : ρ → Int) (data : ρ → σ)
    (tracked : σ → α) (anchor : ρ → Day → Day)
    (s : Scd2State σ) (batch : List ρ) (today : Day) : Scd2State σ × UpsertCounts :=
  batch.foldl
    (fun acc r =>
      let st := scd2Step tracked acc.1 (key r) (data r) (anchor r today) today
      (st.1, bumpClass acc.2 st.2))
    (s, ⟨0, 0, 0⟩)

/-- A validated user record as consumed by the warehouse layer. -/
structure LUser where
  user_id : Int
  name : String
  email : String
  join_date : Day
deriving DecidableEq

/-- A validated product record as consumed by the warehouse layer. -/
structure LProd where
  product_id : Int
  name : String
  category : String
  price : ℚ
  stock : Int
deriving DecidableEq

/-- Stored payload of a `dim_user` row: name, email, join_date; only name and
email are tracked for change detection. -/
abbrev UserData := String × String × Day

/-- Stored payload of a `dim_product` row: name, category, price (stock is
excluded); all three are tracked. -/
abbrev ProdData := String × String × ℚ

/-- src/ETL/etl.py lines 311-357: SCD2 upsert of `dim_user`; a new key's
first version starts at the record's `join_date`. -/
def upsert_dim_user (s : Scd2State UserData) (batch : List LUser) (today : Day) :
    Scd2State UserData × UpsertCounts :=
  scd2Upsert (fun u => u.user_id) (fun u => (u.name, u.email, u.join_date))
    (fun d => (d.1, d.2.1)) (fun u _ => u.join_date) s batch today

/-- src/ETL/etl.py lines 359-404: SCD2 upsert of `dim_product`; a new key's
first version starts at the run date. -/
def upsert_dim_product (s : Scd2State ProdData) (batch : List LProd) (today : Day) :
    Scd2State ProdData × UpsertCounts :=
  scd2Upsert (fun p => p.product_id) (fun p => (p.name, p.category, p.price))
    (fun d => d) (fun _ t => t) s batch today

/-- Rows of a dimension belonging to one business key, in rowid order. -/
def versions {σ : Type} (rows : List (Scd2Row σ)) (key : Int) : List (Scd2Row σ) :=
  rows.filter (fun r => r.key == key)

/-- Number of rows with `current_flag = 1` for a business key. -/
def currentCount {σ : Type} (rows : List (Scd2Row σ)) (key : Int) : Nat :=
  (rows.filter (fun r => r.key == key && r.current)).length

/-! ### Warehouse layer: fact tables and the remaining loaders -/

structure FactRow where
  transaction_id : Int
  user_sk : Nat
  product_sk : Nat
  date_id : Day
  quantity : Int
  total : ℚ
  payment_type : String
  status : String
  load_date : Day
deriving DecidableEq

structure StockRow where
  product_sk : Nat
  date_id : Day
  stock : Int
  load_date : Day
deriving DecidableEq

/-- The OLAP database as touched by the loaders, together with the audit log
state. -/
structure OlapState where
  dimUser : Scd2State UserData
  dimProduct : Scd2State ProdData
  dimDate : List Day
  facts : List FactRow
  stockHist : List StockRow
  log : LogState
deriving DecidableEq

/-- Model of `ensure_dim_date` (src/ETL/etl.py lines 121-143): insert the
date key only if absent (SCD0). -/
def ensure_dim_date (s : OlapState) (d : Day) : OlapState :=
  if s.dimDate.contains d then s else { s with dimDate := s.dimDate ++ [d] }

/-- A validated, normalized transaction as consumed by the loader (its date
already canonical, re-parsed by the loader into a day number). -/
structure LTx where
  tx_id : Int
  date : Day
  user_id : Int
  product_id : Int
  quantity : Int
  total : ℚ
  payment_type : String
  status : String
deriving DecidableEq

/-- The effective-dated surrogate key resolution
(`WHERE key = ? AND start_date <= d AND (end_date IS NULL OR end_date >= d)
ORDER BY start_date DESC LIMIT 1`).  Ties on `start_date` are not ordered by
SQLite; the model keeps the first row scanned, which is the only case the
verified runs ever produce. -/
def resolveSk {σ : Type} (rows : List (Scd2Row σ)) (key : Int) (d : Day) : Option Nat :=
  ((rows.filter (fun r =>
      r.key == key && decide (r.start_date ≤ d) &&
        (r.end_date.isNone || decide (d ≤ r.end_date.getD d)))).foldl
    (fun acc r =>
      match acc with
      | none => some r
      | some a => if a.start_date < r.start_date then some r else acc)
    none).map (fun r => r.sk)

/-- Per-record body of `load_fact_transactions` (src/ETL/etl.py lines
461-519): register the business date, resolve both surrogate keys with the
effective-dated lookup (failure logs a warning and skips), then insert; a
composite-primary-key hit `(transaction_id, product_sk)` raises
`sqlite3.IntegrityError`, which is caught, logged as a `duplicate_tx_id`
warning and counted as skipped. -/
def processFactTx (today : Day) (acc : OlapState × Nat × Nat) (t : LTx) :
    OlapState × Nat × Nat :=
  let s := ensure_dim_date acc.1 t.date
  match resolveSk s.dimUser.rows t.user_id t.date with
  | none =>
    let lg := log_error s.log "transaction" "fact_transactions" (toString t.tx_id)
      "orphan_user" "User not in dim_user for transaction" "warning"
    ({ s with log := lg }, acc.2.1, acc.2.2 + 1)
  | some usk =>
    match resolveSk s.dimProduct.rows t.product_id t.date with
    | none =>
      let lg := log_error s.log "transaction" "fact_transactions" (toString t.tx_id)
        "orphan_product" "Product not in dim_product for transaction" "warning"
      ({ s with log := lg }, acc.2.1, acc.2.2 + 1)
    | some psk =>
      if s.facts.any (fun f => f.transaction_id == t.tx_id && f.product_sk == psk) then
        let lg := log_error s.log "transaction" "fact_transactions" (toString t.tx_id)
          "duplicate_tx_id" "Could not insert transaction" "warning"
        ({ s with log := lg }, acc.2.1, acc.2.2 + 1)
      else
        ({ s with facts := s.facts ++
            [⟨t.tx_id, usk, psk, t.date, t.quantity, t.total, t.payment_type, t.status,
              today⟩] },
          acc.2.1 + 1, acc.2.2)

/-- src/ETL/etl.py lines 448-522: drop every transaction whose business id is
already present in `fact_transactions`, then load the rest.  Returns the
final state and the `(inserted, skipped)` counts. -/
def load_fact_transactions (s : OlapState) (batch : List LTx) (today : Day) :
    OlapState × Nat × Nat :=
  let existing := s.facts.map (fun f => f.transaction_id)
  let newTxs := batch.filter (fun t => !existing.contains t.tx_id)
  if newTxs.isEmpty then (s, 0, 0)
  else newTxs.foldl (processFactTx today) (s, 0, 0)

/-- The `SELECT stock FROM fact_stock_history WHERE product_sk = ? ORDER BY
date_id DESC LIMIT 1` query: the row with the greatest date key for the
surrogate key (ties, never produced by the verified runs, keep the first row
scanned). -/
def lastStockRow (hist : List StockRow) (sk : Nat) : Option StockRow :=
  (hist.filter (fun r => r.product_sk == sk)).foldl
    (fun acc r =>
      match acc with
      | none => some r
      | some a => if a.date_id < r.date_id then some r else acc)
    none

/-- The `SELECT product_sk ... WHERE product_id = ? AND current_flag = 1`
lookup used by the stock loader. -/
def currentSk (rows : List (Scd2Row ProdData)) (pid : Int) : Option Nat :=
  (findCurrent rows pid).map (fun r => r.sk)

/-- Per-record body of `load_fact_stock_history` (src/ETL/etl.py lines
411-443): resolve the current surrogate key (failure logs an
`orphan_product` warning and skips), then append a snapshot row only when no
stock was ever recorded for the key or the last recorded stock differs. -/
def processStock (today : Day) (acc : OlapState × Nat × Nat) (p : LProd) :
    OlapState × Nat × Nat :=
  let s := acc.1
  match currentSk s.dimProduct.rows p.product_id with
  | none =>
    let lg := log_error s.log "product" "fact_stock_history" (toString p.product_id)
      "orphan_product" "Product not in dim_product, skipping stock history" "warning"
    ({ s with log := lg }, acc.2.1, acc.2.2 + 1)
  | some psk =>
    if (lastStockRow s.stockHist psk).isNone ∨
        ((lastStockRow s.stockHist psk).map (fun r => r.stock)) ≠ some p.stock then
      let s1 := ensure_dim_date s today
      ({ s1 with stockHist := s1.stockHist ++ [⟨psk, today, p.stock, today⟩] },
        acc.2.1 + 1, acc.2.2)
    else (s, acc.2.1, acc.2.2 + 1)

/-- src/ETL/etl.py lines 406-446. -/
def load_fact_stock_history (s : OlapState) (batch : List LProd) (today : Day) :
    OlapState × Nat × Nat :=
  batch.foldl (processStock today) (s, 0, 0)

/-- Acceptance decision of the free-function user validator. -/
def userOk (u : SrcUser) : Bool :=
  !nameBad u.name && !emailBad u.email && !joinBad u.join_date

/-- Entries the free-function user validator logs for one record: the first
failing rule only (the loop `continue`s after it). -/
def userEntsEtl (u : SrcUser) : List LogEntry :=
  if nameBad u.name then
    [⟨"user", "dim_user", toString u.user_id, "invalid_user",
      "Empty name for user " ++ toString u.user_id, "error"⟩]
  else if emailBad u.email then
    [⟨"user", "dim_user", toString u.user_id, "invalid_user",
      "Invalid email for user " ++ toString u.user_id, "error"⟩]
  else if joinBad u.join_date then
    [⟨"user", "dim_user", toString u.user_id, "invalid_user",
      "NULL join_date for user " ++ toString u.user_id, "error"⟩]
  else []

/-- Entries the class-based user validator logs for one record: one entry
per failing rule, accumulated without short-circuiting. -/
def userEntsDV (u : SrcUser) : List LogEntry :=
  (if nameBad u.name then
    [⟨"user", "users", toString u.user_id, "invalid_user",
      "Empty name for user " ++ toString u.user_id, "error"⟩] else []) ++
  (if emailBad u.email then
    [⟨"user", "users", toString u.user_id, "invalid_user",
      "Invalid email for user " ++ toString u.user_id, "error"⟩] else []) ++
  (if joinBad u.join_date then
    [⟨"user", "users", toString u.user_id, "invalid_user",
      "NULL join_date for user " ++ toString u.user_id, "error"⟩] else [])

/-- Acceptance decision of the product validator. -/
def productOk (p : SrcProduct) : Bool :=
  !(decide (10000 ≤ p.price)) && !(decide (p.stock < 0))

def productEnts (p : SrcProduct) : List LogEntry :=
  if 10000 ≤ p.price then
    [⟨"product", "dim_product", toString p.product_id, "price_ge_10000",
      "Product price ge 10000 for " ++ toString p.product_id, "error"⟩]
  else if p.stock < 0 then
    [⟨"product", "dim_product", toString p.product_id, "negative_stock",
      "Product has negative stock " ++ toString p.product_id, "error"⟩]
  else []

/-! ### Transaction loader: idempotence infrastructure -/

/-- Both effective-dated surrogate keys of a transaction resolve against the
given dimension states. -/
def txResolves (su : Scd2State UserData) (sp : Scd2State ProdData) (t : LTx) : Bool :=
  (resolveSk su.rows t.user_id t.date).isSome && (resolveSk sp.rows t.product_id t.date).isSome

/-! ### Stock history: change-only retention -/

/-- A sequence of stock-loader runs for one product: run `i` observes stock
`v i` on date `d i` (the dimension tables are not touched by the stock
loader, so the product's surrogate key resolution is stable). -/
def runStockSeq (base : LProd) : OlapState → List (Day × Int) → OlapState
  | s, [] => s
  | s, (d, v) :: rest =>
    runStockSeq base (load_fact_stock_history s [{ base with stock := v }] d).1 rest

/-- Number of changes observed in a stock sequence, given the previously
recorded value: the first observation after `none` always counts. -/
def observedChanges : Option Int → List Int → Nat
  | _, [] => 0
  | last, v :: rest => (if last = some v then 0 else 1) + observedChanges (some v) rest

/-! ### SCD2: version-interval contiguity -/

/-- Surrogate-key well-formedness maintained by the AUTOINCREMENT primary
key: all surrogate keys in a dimension are distinct and below the next key
to be assigned. -/
def SkWF {σ : Type} (s : Scd2State σ) : Prop :=
  (s.rows.map (fun r => r.sk)).Nodup ∧ ∀ r ∈ s.rows, r.sk < s.nextSk

/-- Shape of one business key's version list (in rowid order) after runs up
to date `d`: every non-last version is closed one day before its successor
opens and starts strictly before it; the last version is current, open
ended, and started no later than `d`. -/
def VersOK {σ : Type} (d : Day) : List (Scd2Row σ) → Prop
  | [] => True
  | [r] => r.current = true ∧ r.end_date = none ∧ r.start_date ≤ d
  | a :: b :: t => a.current = false ∧ a.end_date = some (b.start_date - 1) ∧
      a.start_date < b.start_date ∧ VersOK d (b :: t)

/-- Insertion sort by `start_date` (the claim's "versions ordered by
start_date"). -/
def insertByStart {σ : Type} (r : Scd2Row σ) : List (Scd2Row σ) → List (Scd2Row σ)
  | [] => [r]
  | x :: xs =>
    if r.start_date ≤ x.start_date then r :: x :: xs else x :: insertByStart r xs

def sortByStart {σ : Type} : List (Scd2Row σ) → List (Scd2Row σ)
  | [] => []
  | r :: rs => insertByStart r (sortByStart rs)

/-- The claimed contiguity of consecutive versions:
`version[i].end_date + 1 day = version[i+1].start_date`. -/
def contiguousChain {σ : Type} : List (Scd2Row σ) → Prop :=
  List.Chain' (fun a b => a.end_date = some (b.start_date - 1))

/-- Strict start-date sortedness together with contiguity of consecutive
versions. -/
def sortedContig {σ : Type} : List (Scd2Row σ) → Prop :=
  List.Chain' (fun a b =>
    a.start_date < b.start_date ∧ a.end_date = some (b.start_date - 1))

/-- A sequence of `upsert_dim_user` runs starting from an empty dimension. -/
def runUserRuns (runs : List (List LUser × Day)) : Scd2State UserData :=
  runs.foldl (fun s q => (upsert_dim_user s q.1 q.2).1) scd2Empty

/-- A sequence of `upsert_dim_product` runs starting from an empty
dimension. -/
def runProductRuns (runs : List (List LProd × Day)) : Scd2State ProdData :=
  runs.foldl (fun s q => (upsert_dim_product s q.1 q.2).1) scd2Empty

end Ecom

def c8pA : Ecom.SrcProduct := ⟨1, none, "c", 10000, 5⟩

def c8pB : Ecom.SrcProduct := ⟨2, none, "c", 999999 / 100, 0⟩

def c8pC : Ecom.SrcProduct := ⟨3, none, "c", 5, -1⟩

def c8batch : List Ecom.SrcProduct := [c8pA, c8pB, c8pC]

def c10ctx : Ecom.TxCtx := ⟨[7], [8], [(8, 10)]⟩

def c10tx : Ecom.SrcTx := ⟨1, "2026-02-01", 7, 8, 3, 30, some "visa", some "success"⟩

def c6state : Ecom.OlapState :=
  ⟨Ecom.scd2Empty, ⟨[⟨1, 5, ("P", "c", (2 : ℚ)), 0, none, true⟩], 2⟩, [], [], [],
    Ecom.logState0⟩

def c6prod : Ecom.LProd := ⟨5, "P", "c", 2, 7⟩

def c9stateA : Ecom.OlapState :=
  ⟨⟨[⟨1, 1, ("U", "u@e.c", 0), 0, none, true⟩], 2⟩,
    ⟨[⟨1, 10, ("A", "c", (1 : ℚ)), 0, none, true⟩,
      ⟨2, 20, ("B", "c", (1 : ℚ)), 0, none, true⟩], 3⟩,
    [], [], [], Ecom.logState0⟩

def c9txA : Ecom.LTx := ⟨555, 50, 1, 10, 1, 5, "visa", "success"⟩

def c9txB : Ecom.LTx := ⟨555, 50, 1, 20, 1, 5, "visa", "success"⟩

def c9stateB : Ecom.OlapState :=
  ⟨⟨[⟨1, 1, ("U", "u@e.c", 0), 0, none, true⟩], 2⟩,
    ⟨[⟨1, 10, ("A", "c", (1 : ℚ)), 0, none, true⟩], 2⟩,
    [], [], [], Ecom.logState0⟩

def c9txC : Ecom.LTx := ⟨555, 50, 1, 10, 2, 5, "visa", "success"⟩

def c5runs : List (List Ecom.LUser × Ecom.Day) :=
  [([⟨1, "A", "e", 500⟩], 100), ([⟨1, "B", "e", 500⟩], 101)]

def c5runsW : List (List Ecom.LUser × Ecom.Day) :=
  [([⟨1, "A", "e", 10⟩], 100), ([⟨1, "B", "e", 10⟩], 101)]

namespace Ecom

/-! ### General facts about the validator loop -/

/-- If a per-record processor decides acceptance by `dec` and appends the
entries `ents` of the record to the log, the validator loop appends the
concatenation of all records' entries and partitions the batch by `dec`. -/
theorem partitionLog_spec {ρ : Type} (f : LogState → ρ → LogState × Bool)
    (dec : ρ → Bool) (ents : ρ → List LogEntry)
    (hdec : ∀ st r, (f st r).2 = dec r)
    (hent : ∀ st r, (f st r).1.entries = st.entries ++ ents r) :
    ∀ (rs : List ρ) (st : LogState),
      (partitionLog f st rs).1.entries = st.entries ++ (rs.map ents).flatten ∧
        (partitionLog f st rs).2.1 = rs.filter dec ∧
        (partitionLog f st rs).2.2 = rs.filter (fun r => !dec r) := by
  intro rs
  induction rs with
  | nil => intro st; simp [partitionLog]
  | cons r rs ih =>
    intro st
    obtain ⟨h1, h2, h3⟩ := ih (f st r).1
    have hd := hdec st r
    cases hdr : dec r with
    | true =>
      rw [hdr] at hd
      simp [partitionLog, hd, h1, h2, h3, hent st r, List.filter_cons, hdr]
    | false =>
      rw [hdr] at hd
      simp [partitionLog, hd, h1, h2, h3, hent st r, List.filter_cons, hdr]

theorem processUserEtl_dec (st : LogState) (u : SrcUser) :
    (processUserEtl st u).2 = userOk u := by
  unfold processUserEtl userOk
  split_ifs <;> simp_all

theorem processUserEtl_ents (st : LogState) (u : SrcUser) :
    (processUserEtl st u).1.entries = st.entries ++ userEntsEtl u := by
  unfold processUserEtl userEntsEtl
  split_ifs <;> simp [log_error]

theorem processUserDV_dec (st : LogState) (u : SrcUser) :
    (processUserDV st u).2 = userOk u := by
  unfold processUserDV userOk
  rfl

theorem processUserDV_ents (st : LogState) (u : SrcUser) :
    (processUserDV st u).1.entries = st.entries ++ userEntsDV u := by
  unfold processUserDV userEntsDV
  split_ifs <;> simp [dvLogError]

theorem userEntsDV_length (u : SrcUser) : (userEntsDV u).length = userFailCount u := by
  unfold userEntsDV userFailCount
  split_ifs <;> simp

theorem userEntsEtl_length_of_rejected (u : SrcUser) (h : userOk u = false) :
    (userEntsEtl u).length = 1 := by
  unfold userOk at h
  unfold userEntsEtl
  split_ifs with h1 h2 h3 <;> simp_all

theorem processProductEtl_dec (st : LogState) (p : SrcProduct) :
    (processProductEtl st p).2 = productOk p := by
  unfold processProductEtl productOk
  split_ifs <;> simp_all

theorem processProductEtl_ents (st : LogState) (p : SrcProduct) :
    (processProductEtl st p).1.entries = st.entries ++ productEnts p := by
  unfold processProductEtl productEnts
  split_ifs <;> simp [log_error]

theorem countType_log_error (st : LogState) (e tb rid et m sv ty : String) :
    countType (log_error st e tb rid et m sv) ty =
      countType st ty + (if et = ty then 1 else 0) := by
  simp only [countType, log_error, List.filter_append, List.length_append]
  split_ifs with h <;> simp [h]

theorem userEntsEtl_length (u : SrcUser) :
    (userEntsEtl u).length = if userOk u then 0 else 1 := by
  unfold userEntsEtl userOk
  split_ifs <;> simp_all

theorem userOk_eq_failCount_zero (u : SrcUser) :
    (!userOk u) = decide (userFailCount u ≠ 0) := by
  unfold userOk userFailCount
  cases nameBad u.name <;> cases emailBad u.email <;> cases joinBad u.join_date <;> simp

theorem sum_map_ite_one {α : Type} (p : α → Bool) (l : List α) :
    (l.map (fun a => if p a then 1 else 0)).sum = l.countP p := by
  induction l with
  | nil => simp
  | cons a l ih =>
    cases h : p a <;> simp [List.countP_cons, h, ih] <;> omega

/-- When the guard of the price-mismatch check does not hold, processing a
transaction record leaves the number of `price_mismatch` entries unchanged
(every other branch logs a different error type or nothing). -/
theorem processTxEtl_mismatch_count_of_unreached (ctx : TxCtx) (t : SrcTx)
    (hr : reachesPriceCheck ctx t = false) (st : LogState) (seen : List Int) :
    countType (processTxEtl ctx st seen t).1 "price_mismatch" =
      countType st "price_mismatch" := by
  unfold processTxEtl
  split_ifs with h1 h2 h3 h4 h5 h6 h7
  · simp [countType_log_error]
  · simp [countType_log_error]
  · simp [countType_log_error]
  · simp [countType_log_error]
  · simp [countType_log_error]
  · simp [countType_log_error]
  all_goals
    cases hpd : parse_date t.date with
    | none => simp [countType_log_error]
    | some pd =>
      have hu : ctx.validUserIds.contains t.user_id = true := by simpa using h1
      have hp : ctx.validProductIds.contains t.product_id = true := by simpa using h2
      have hpay : valid_payment_types.contains (normOpt t.payment_type) = true := by
        simpa using h5
      have hst : valid_statuses.contains (normOpt t.status) = true := by simpa using h6
      have hnone : priceOf ctx t.product_id = none := by
        simp only [reachesPriceCheck, hu, hp, hpay, hst, hpd] at hr
        simp [h3, h4] at hr
        exact Option.not_isSome_iff_eq_none.1 (by simp [hr])
      simp [hnone, countType_log_error]

/-! ### SCD2: preservation of the at-most-one-current-row invariant -/

theorem currentCount_append {σ : Type} (l1 l2 : List (Scd2Row σ)) (k : Int) :
    currentCount (l1 ++ l2) k = currentCount l1 k + currentCount l2 k := by
  simp [currentCount, List.filter_append]

theorem currentCount_singleton {σ : Type} (r : Scd2Row σ) (k : Int) :
    currentCount [r] k = if r.key == k && r.current then 1 else 0 := by
  simp only [currentCount]
  cases h : (r.key == k && r.current) <;> simp [List.filter_cons, h]

theorem findCurrent_none_count {σ : Type} (rows : List (Scd2Row σ)) (k : Int)
    (h : findCurrent rows k = none) : currentCount rows k = 0 := by
  rw [currentCount, List.length_eq_zero, List.filter_eq_nil_iff]
  intro r hr
  exact List.find?_eq_none.1 h r hr

theorem currentCount_map_close_le {σ : Type} (rows : List (Scd2Row σ)) (sk : Nat)
    (d : Day) (k : Int) :
    currentCount (rows.map (closeRow sk d)) k ≤ currentCount rows k := by
  simp only [currentCount, ← List.countP_eq_length_filter, List.countP_map]
  refine List.countP_mono_left ?_
  intro r _ hr
  simp only [Function.comp_def, closeRow] at hr
  split_ifs at hr with hsk
  · simp at hr
  · exact hr

theorem currentCount_map_close_of_found {σ : Type} (rows : List (Scd2Row σ)) (k : Int)
    (cur : Scd2Row σ) (d : Day) (hfind : findCurrent rows k = some cur)
    (hle : currentCount rows k ≤ 1) :
    currentCount (rows.map (closeRow cur.sk d)) k = 0 := by
  unfold findCurrent at hfind
  have hmem : cur ∈ rows := List.mem_of_find?_eq_some hfind
  have hcur : (cur.key == k && cur.current) = true := by
    have h2 := List.find?_some hfind
    simpa using h2
  have hfl : rows.filter (fun r => r.key == k && r.current) = [cur] := by
    have hm : cur ∈ rows.filter (fun r => r.key == k && r.current) :=
      List.mem_filter.2 ⟨hmem, hcur⟩
    have hlen : (rows.filter (fun r => r.key == k && r.current)).length ≤ 1 := hle
    cases hl : rows.filter (fun r => r.key == k && r.current) with
    | nil => rw [hl] at hm; simp at hm
    | cons a t =>
      cases t with
      | nil =>
        rw [hl] at hm
        simp at hm
        rw [hm]
      | cons b t2 => rw [hl] at hlen; simp at hlen
  rw [currentCount, List.length_eq_zero, List.filter_eq_nil_iff]
  intro r hr
  obtain ⟨r0, hr0, rfl⟩ := List.mem_map.1 hr
  unfold closeRow
  split_ifs with hsk
  · simp
  · intro hpred
    have : r0 ∈ rows.filter (fun r => r.key == k && r.current) :=
      List.mem_filter.2 ⟨hr0, hpred⟩
    rw [hfl] at this
    simp at this
    exact hsk (by rw [this])

theorem currentCount_scd2Step_le {σ α : Type} [DecidableEq α] (tracked : σ → α)
    (s : Scd2State σ) (key : Int) (data : σ) (anchor today : Day)
    (hle : ∀ k, currentCount s.rows k ≤ 1) (k : Int) :
    currentCount (scd2Step tracked s key data anchor today).1.rows k ≤ 1 := by
  unfold scd2Step
  cases hf : findCurrent s.rows key with
  | none =>
    simp only
    rw [currentCount_append, currentCount_singleton]
    split_ifs with hnew
    · have hk : key = k := by simpa using hnew
      rw [← hk, findCurrent_none_count s.rows key hf]
    · have := hle k
      omega
  | some cur =>
    simp only
    split_ifs with hch
    · rw [currentCount_append, currentCount_singleton]
      split_ifs with hnew
      · have hk : key = k := by simpa using hnew
        rw [← hk, currentCount_map_close_of_found s.rows key cur (today - 1) hf (hle key)]
      · have := currentCount_map_close_le s.rows cur.sk (today - 1) k
        have := hle k
        omega
    · exact hle k

theorem scd2_fold_le {ρ σ α : Type} [DecidableEq α] (key : ρ → Int) (data : ρ → σ)
    (tracked : σ → α) (anchor : ρ → Day → Day) (today : Day) :
    ∀ (batch : List ρ) (s : Scd2State σ) (c : UpsertCounts),
      (∀ k, currentCount s.rows k ≤ 1) →
      ∀ k, currentCount ((batch.foldl
        (fun acc r =>
          let st := scd2Step tracked acc.1 (key r) (data r) (anchor r today) today
          (st.1, bumpClass acc.2 st.2)) (s, c)).1).rows k ≤ 1 := by
  intro batch
  induction batch with
  | nil => intro s c h k; exact h k
  | cons r rs ih =>
    intro s c h k
    rw [List.foldl_cons]
    exact ih _ _ (fun k2 => currentCount_scd2Step_le tracked s (key r) (data r)
      (anchor r today) today h k2) k

theorem ensure_dim_date_dimUser (s : OlapState) (d : Day) :
    (ensure_dim_date s d).dimUser = s.dimUser := by
  unfold ensure_dim_date
  split_ifs <;> rfl

theorem ensure_dim_date_dimProduct (s : OlapState) (d : Day) :
    (ensure_dim_date s d).dimProduct = s.dimProduct := by
  unfold ensure_dim_date
  split_ifs <;> rfl

theorem ensure_dim_date_facts (s : OlapState) (d : Day) :
    (ensure_dim_date s d).facts = s.facts := by
  unfold ensure_dim_date
  split_ifs <;> rfl

theorem ensure_dim_date_stockHist (s : OlapState) (d : Day) :
    (ensure_dim_date s d).stockHist = s.stockHist := by
  unfold ensure_dim_date
  split_ifs <;> rfl

theorem processFactTx_dims (today : Day) (acc : OlapState × Nat × Nat) (t : LTx) :
    (processFactTx today acc t).1.dimUser = acc.1.dimUser ∧
      (processFactTx today acc t).1.dimProduct = acc.1.dimProduct := by
  unfold processFactTx
  simp only [ensure_dim_date_dimUser, ensure_dim_date_dimProduct]
  cases h1 : resolveSk acc.1.dimUser.rows t.user_id t.date with
  | none => exact ⟨rfl, rfl⟩
  | some usk =>
    cases h2 : resolveSk acc.1.dimProduct.rows t.product_id t.date with
    | none => exact ⟨rfl, rfl⟩
    | some psk =>
      dsimp only
      split_ifs <;> exact ⟨rfl, rfl⟩

theorem processFactTx_facts_append (today : Day) (acc : OlapState × Nat × Nat) (t : LTx) :
    ∃ δ, (processFactTx today acc t).1.facts = acc.1.facts ++ δ := by
  unfold processFactTx
  simp only [ensure_dim_date_dimUser, ensure_dim_date_dimProduct]
  cases h1 : resolveSk acc.1.dimUser.rows t.user_id t.date with
  | none => exact ⟨[], by simp [ensure_dim_date_facts]⟩
  | some usk =>
    cases h2 : resolveSk acc.1.dimProduct.rows t.product_id t.date with
    | none => exact ⟨[], by simp [ensure_dim_date_facts]⟩
    | some psk =>
      dsimp only
      split_ifs with h3
      · exact ⟨[], by simp [ensure_dim_date_facts]⟩
      · refine ⟨[⟨t.tx_id, usk, psk, t.date, t.quantity, t.total, t.payment_type,
          t.status, today⟩], ?_⟩
        simp [ensure_dim_date_facts]

theorem loadTx_fold_dims (today : Day) :
    ∀ (l : List LTx) (acc : OlapState × Nat × Nat),
      ((l.foldl (processFactTx today) acc).1).dimUser = acc.1.dimUser ∧
        ((l.foldl (processFactTx today) acc).1).dimProduct = acc.1.dimProduct := by
  intro l
  induction l with
  | nil => intro acc; exact ⟨rfl, rfl⟩
  | cons t ts ih =>
    intro acc
    rw [List.foldl_cons]
    obtain ⟨ihu, ihp⟩ := ih (processFactTx today acc t)
    obtain ⟨hu, hp⟩ := processFactTx_dims today acc t
    exact ⟨ihu.trans hu, ihp.trans hp⟩

theorem loadTx_fold_facts_append (today : Day) :
    ∀ (l : List LTx) (acc : OlapState × Nat × Nat),
      ∃ δ, ((l.foldl (processFactTx today) acc).1).facts = acc.1.facts ++ δ := by
  intro l
  induction l with
  | nil => intro acc; exact ⟨[], by simp⟩
  | cons t ts ih =>
    intro acc
    rw [List.foldl_cons]
    obtain ⟨δ1, h1⟩ := processFactTx_facts_append today acc t
    obtain ⟨δ2, h2⟩ := ih (processFactTx today acc t)
    exact ⟨δ1 ++ δ2, by rw [h2, h1, List.append_assoc]⟩

theorem processFactTx_id_mem_of_resolves (today : Day) (acc : OlapState × Nat × Nat)
    (t : LTx) (h : txResolves acc.1.dimUser acc.1.dimProduct t = true) :
    t.tx_id ∈ (processFactTx today acc t).1.facts.map (fun f => f.transaction_id) := by
  unfold txResolves at h
  simp only [Bool.and_eq_true, Option.isSome_iff_exists] at h
  obtain ⟨⟨usk, husk⟩, ⟨psk, hpsk⟩⟩ := h
  unfold processFactTx
  simp only [ensure_dim_date_dimUser, ensure_dim_date_dimProduct, husk, hpsk]
  split_ifs with h3
  · obtain ⟨f, hf, hpred⟩ := List.any_eq_true.1 h3
    rw [ensure_dim_date_facts] at hf
    simp only [ensure_dim_date_facts, List.mem_map]
    refine ⟨f, hf, ?_⟩
    have h4 : (f.transaction_id == t.tx_id) = true := by
      simp only [Bool.and_eq_true] at hpred
      exact hpred.1
    simpa using h4
  · simp [ensure_dim_date_facts]

theorem loadTx_fold_id_mem (today : Day) :
    ∀ (l : List LTx) (acc : OlapState × Nat × Nat) (t : LTx), t ∈ l →
      txResolves acc.1.dimUser acc.1.dimProduct t = true →
      t.tx_id ∈ ((l.foldl (processFactTx today) acc).1).facts.map (fun f => f.transaction_id) := by
  intro l
  induction l with
  | nil => intro acc t ht; simp at ht
  | cons u us ih =>
    intro acc t ht hres
    rw [List.foldl_cons]
    rcases List.mem_cons.1 ht with rfl | htail
    · have hmem := processFactTx_id_mem_of_resolves today acc t hres
      obtain ⟨δ, hδ⟩ := loadTx_fold_facts_append today us (processFactTx today acc t)
      rw [hδ]
      simp only [List.map_append, List.mem_append]
      exact Or.inl hmem
    · obtain ⟨hu, hp⟩ := processFactTx_dims today acc u
      exact ih (processFactTx today acc u) t htail (by rw [hu, hp]; exact hres)

theorem processFactTx_skip (today : Day) (acc : OlapState × Nat × Nat) (t : LTx)
    (h : txResolves acc.1.dimUser acc.1.dimProduct t = false) :
    (processFactTx today acc t).1.facts = acc.1.facts ∧
      (processFactTx today acc t).2.1 = acc.2.1 := by
  unfold txResolves at h
  unfold processFactTx
  simp only [ensure_dim_date_dimUser, ensure_dim_date_dimProduct]
  cases h1 : resolveSk acc.1.dimUser.rows t.user_id t.date with
  | none => simp [ensure_dim_date_facts]
  | some usk =>
    cases h2 : resolveSk acc.1.dimProduct.rows t.product_id t.date with
    | none => simp [ensure_dim_date_facts]
    | some psk =>
      rw [h1, h2] at h
      simp at h

theorem loadTx_fold_skip (today : Day) :
    ∀ (l : List LTx) (acc : OlapState × Nat × Nat),
      (∀ t ∈ l, txResolves acc.1.dimUser acc.1.dimProduct t = false) →
      ((l.foldl (processFactTx today) acc).1).facts = acc.1.facts ∧
        (l.foldl (processFactTx today) acc).2.1 = acc.2.1 := by
  intro l
  induction l with
  | nil => intro acc h; exact ⟨rfl, rfl⟩
  | cons t ts ih =>
    intro acc h
    rw [List.foldl_cons]
    obtain ⟨hf, hi⟩ := processFactTx_skip today acc t (h t (List.mem_cons_self t ts))
    obtain ⟨hu, hp⟩ := processFactTx_dims today acc t
    obtain ⟨ihf, ihi⟩ := ih (processFactTx today acc t)
      (fun u hu2 => by rw [hu, hp]; exact h u (List.mem_cons_of_mem t hu2))
    exact ⟨ihf.trans hf, ihi.trans hi⟩

/-- Unfolding equation for the transaction loader. -/
theorem load_fact_transactions_eq (s : OlapState) (batch : List LTx) (today : Day) :
    load_fact_transactions s batch today =
      (if (batch.filter (fun t =>
            !(s.facts.map (fun f => f.transaction_id)).contains t.tx_id)).isEmpty
        then (s, 0, 0)
        else (batch.filter (fun t =>
            !(s.facts.map (fun f => f.transaction_id)).contains t.tx_id)).foldl
          (processFactTx today) (s, 0, 0)) := rfl

theorem ensure_dim_date_log (s : OlapState) (d : Day) :
    (ensure_dim_date s d).log = s.log := by
  unfold ensure_dim_date
  split_ifs <;> rfl

theorem processStock_dimProduct (today : Day) (acc : OlapState × Nat × Nat) (p : LProd) :
    (processStock today acc p).1.dimProduct = acc.1.dimProduct := by
  unfold processStock
  dsimp only
  cases h : currentSk acc.1.dimProduct.rows p.product_id with
  | none => rfl
  | some psk =>
    dsimp only
    split_ifs <;> simp [ensure_dim_date_dimProduct]

theorem pickMax_mem :
    ∀ (fl : List StockRow) (acc0 : Option StockRow) (r : StockRow),
      fl.foldl (fun acc r2 =>
        match acc with
        | none => some r2
        | some a => if a.date_id < r2.date_id then some r2 else acc) acc0 = some r →
      r ∈ fl ∨ acc0 = some r := by
  intro fl
  induction fl with
  | nil => intro acc0 r h; exact Or.inr h
  | cons x xs ih =>
    intro acc0 r h
    rw [List.foldl_cons] at h
    rcases ih _ r h with hmem | hacc
    · exact Or.inl (List.mem_cons_of_mem x hmem)
    · cases acc0 with
      | none =>
        simp at hacc
        exact Or.inl (by rw [← hacc]; exact List.mem_cons_self x xs)
      | some a =>
        dsimp only at hacc
        by_cases hlt : a.date_id < x.date_id
        · rw [if_pos hlt] at hacc
          simp at hacc
          exact Or.inl (by rw [← hacc]; exact List.mem_cons_self x xs)
        · rw [if_neg hlt] at hacc
          exact Or.inr hacc

theorem lastStockRow_append (hist : List StockRow) (sk : Nat) (row : StockRow)
    (hrow : row.product_sk = sk)
    (hall : ∀ r ∈ hist.filter (fun r2 => r2.product_sk == sk), r.date_id < row.date_id) :
    lastStockRow (hist ++ [row]) sk = some row := by
  unfold lastStockRow
  rw [List.filter_append, List.foldl_append]
  have hfr : [row].filter (fun r2 => r2.product_sk == sk) = [row] := by
    simp [hrow]
  rw [hfr, List.foldl_cons, List.foldl_nil]
  cases hacc : (hist.filter (fun r2 => r2.product_sk == sk)).foldl
      (fun acc r2 =>
        match acc with
        | none => some r2
        | some a => if a.date_id < r2.date_id then some r2 else acc) none with
  | none => rfl
  | some a =>
    have hmem : a ∈ hist.filter (fun r2 => r2.product_sk == sk) := by
      rcases pickMax_mem _ _ _ hacc with hm | hc
      · exact hm
      · simp at hc
    dsimp only
    rw [if_pos (hall a hmem)]

theorem lastStockRow_of_filter_nil (hist : List StockRow) (sk : Nat)
    (h : hist.filter (fun r2 => r2.product_sk == sk) = []) :
    lastStockRow hist sk = none := by
  unfold lastStockRow
  rw [h]
  rfl

/-- Characterisation of one stock-loader step when the surrogate key
resolves: the history is extended exactly when no stock was ever recorded
for the key or the last recorded stock differs. -/
theorem processStock_char (today : Day) (acc : OlapState × Nat × Nat) (p : LProd)
    (sk : Nat) (hres : currentSk acc.1.dimProduct.rows p.product_id = some sk) :
    (if (lastStockRow acc.1.stockHist sk).isNone ∨
        ((lastStockRow acc.1.stockHist sk).map (fun r => r.stock)) ≠ some p.stock then
      (processStock today acc p).1.stockHist =
        acc.1.stockHist ++ [⟨sk, today, p.stock, today⟩] ∧
        (processStock today acc p).2.1 = acc.2.1 + 1
    else
      (processStock today acc p).1.stockHist = acc.1.stockHist ∧
        (processStock today acc p).2.2 = acc.2.2 + 1) := by
  unfold processStock
  dsimp only
  rw [hres]
  dsimp only
  split_ifs with hc
  · exact ⟨by simp [ensure_dim_date_stockHist], rfl⟩
  · exact ⟨rfl, rfl⟩

theorem runStockSeq_count (base : LProd) (sk : Nat) :
    ∀ (runs : List (Day × Int)) (s : OlapState) (last : Option Int),
      currentSk s.dimProduct.rows base.product_id = some sk →
      (lastStockRow s.stockHist sk).map (fun r => r.stock) = last →
      (∀ r ∈ s.stockHist.filter (fun r2 => r2.product_sk == sk), ∀ q ∈ runs, r.date_id < q.1) →
      (runs.map (fun q => q.1)).Pairwise (· < ·) →
      ((runStockSeq base s runs).stockHist.filter (fun r2 => r2.product_sk == sk)).length =
        (s.stockHist.filter (fun r2 => r2.product_sk == sk)).length +
          observedChanges last (runs.map (fun q => q.2)) := by
  intro runs
  induction runs with
  | nil =>
    intro s last h1 h2 h3 h4
    simp [runStockSeq, observedChanges]
  | cons q rest ih =>
    intro s last hres hlast hdates hpair
    obtain ⟨d, v⟩ := q
    have hstep := processStock_char d (s, 0, 0) { base with stock := v } sk hres
    have hseq : runStockSeq base s ((d, v) :: rest) =
        runStockSeq base (processStock d (s, 0, 0) { base with stock := v }).1 rest := rfl
    have hdim : (processStock d (s, 0, 0) { base with stock := v }).1.dimProduct =
        s.dimProduct := processStock_dimProduct d (s, 0, 0) { base with stock := v }
    rw [hseq]
    split_ifs at hstep with hc
    · -- a change is recorded
      have hlastne : last ≠ some v := by
        intro heq
        rcases hc with hn | hm
        · rw [heq] at hlast
          cases hopt : lastStockRow s.stockHist sk with
          | none => rw [hopt] at hlast; simp at hlast
          | some r => rw [hopt] at hn; simp at hn
        · exact hm (by rw [hlast, heq])
      have hall2 : ∀ r ∈ s.stockHist.filter (fun r2 => r2.product_sk == sk),
          r.date_id < d := fun r hr => hdates r hr (d, v) (List.mem_cons_self _ _)
      have hrow : ({ product_sk := sk, date_id := d, stock := v, load_date := d } :
          StockRow).product_sk = sk := rfl
      have hlast1 : (lastStockRow
          (processStock d (s, 0, 0) { base with stock := v }).1.stockHist sk).map
          (fun r => r.stock) = some v := by
        rw [hstep.1, lastStockRow_append s.stockHist sk _ hrow hall2]
        rfl
      have hpairtail : (rest.map (fun q => q.1)).Pairwise (· < ·) :=
        (List.pairwise_cons.1 (by simpa using hpair)).2
      have hdhead : ∀ x ∈ rest.map (fun q => q.1), d < x :=
        (List.pairwise_cons.1 (by simpa using hpair)).1
      have hdates1 : ∀ r ∈ (processStock d (s, 0, 0)
          { base with stock := v }).1.stockHist.filter (fun r2 => r2.product_sk == sk),
          ∀ q ∈ rest, r.date_id < q.1 := by
        intro r hr q hq
        rw [hstep.1, List.filter_append] at hr
        rcases List.mem_append.1 hr with hold | hnew
        · exact hdates r hold q (List.mem_cons_of_mem _ hq)
        · have : r = { product_sk := sk, date_id := d, stock := v, load_date := d } := by
            simpa using hnew
          rw [this]
          exact hdhead q.1 (List.mem_map.2 ⟨q, hq, rfl⟩)
      have hcount := ih (processStock d (s, 0, 0) { base with stock := v }).1 (some v)
        (by rw [hdim]; exact hres) hlast1 hdates1 hpairtail
      rw [hcount, hstep.1, List.filter_append]
      simp only [List.map_cons, observedChanges, if_neg hlastne]
      have : (List.filter (fun r2 => r2.product_sk == sk)
          [({ product_sk := sk, date_id := d, stock := v, load_date := d } : StockRow)]).length
          = 1 := by simp
      rw [List.length_append, this]
      omega
    · -- unchanged stock: no write
      have hcnone : ¬(lastStockRow s.stockHist sk).isNone = true ∧
          (lastStockRow s.stockHist sk).map (fun r => r.stock) = some v := by
        constructor
        · intro hn; exact hc (Or.inl hn)
        · by_contra hm; exact hc (Or.inr hm)
      have hlasteq : last = some v := by rw [← hlast, hcnone.2]
      have hlast1 : (lastStockRow
          (processStock d (s, 0, 0) { base with stock := v }).1.stockHist sk).map
          (fun r => r.stock) = some v := by
        rw [hstep.1, hcnone.2]
      have hpairtail : (rest.map (fun q => q.1)).Pairwise (· < ·) :=
        (List.pairwise_cons.1 (by simpa using hpair)).2
      have hdates1 : ∀ r ∈ (processStock d (s, 0, 0)
          { base with stock := v }).1.stockHist.filter (fun r2 => r2.product_sk == sk),
          ∀ q ∈ rest, r.date_id < q.1 := by
        intro r hr q hq
        rw [hstep.1] at hr
        exact hdates r hr q (List.mem_cons_of_mem _ hq)
      have hcount := ih (processStock d (s, 0, 0) { base with stock := v }).1 (some v)
        (by rw [hdim]; exact hres) hlast1 hdates1 hpairtail
      rw [hcount, hstep.1]
      simp only [List.map_cons, observedChanges, if_pos hlasteq]
      omega

/-! ### Transaction loader: duplicate handling under the composite key -/

theorem processFactTx_insert (today : Day) (acc : OlapState × Nat × Nat) (t : LTx)
    (usk psk : Nat)
    (hu : resolveSk acc.1.dimUser.rows t.user_id t.date = some usk)
    (hp : resolveSk acc.1.dimProduct.rows t.product_id t.date = some psk)
    (hany : acc.1.facts.any
      (fun f => f.transaction_id == t.tx_id && f.product_sk == psk) = false) :
    (processFactTx today acc t).1.facts = acc.1.facts ++
        [⟨t.tx_id, usk, psk, t.date, t.quantity, t.total, t.payment_type, t.status, today⟩] ∧
      (processFactTx today acc t).2.1 = acc.2.1 + 1 ∧
      (processFactTx today acc t).2.2 = acc.2.2 ∧
      (processFactTx today acc t).1.log = acc.1.log ∧
      (processFactTx today acc t).1.dimUser = acc.1.dimUser ∧
      (processFactTx today acc t).1.dimProduct = acc.1.dimProduct := by
  unfold processFactTx
  simp only [ensure_dim_date_dimUser, ensure_dim_date_dimProduct, hu, hp]
  rw [if_neg (by rw [ensure_dim_date_facts, hany]; exact Bool.false_ne_true)]
  exact ⟨by simp [ensure_dim_date_facts], rfl, rfl, by simp [ensure_dim_date_log], rfl, rfl⟩

theorem processFactTx_dup (today : Day) (acc : OlapState × Nat × Nat) (t : LTx)
    (usk psk : Nat)
    (hu : resolveSk acc.1.dimUser.rows t.user_id t.date = some usk)
    (hp : resolveSk acc.1.dimProduct.rows t.product_id t.date = some psk)
    (hany : acc.1.facts.any
      (fun f => f.transaction_id == t.tx_id && f.product_sk == psk) = true) :
    (processFactTx today acc t).1.facts = acc.1.facts ∧
      (processFactTx today acc t).2.1 = acc.2.1 ∧
      (processFactTx today acc t).2.2 = acc.2.2 + 1 ∧
      countType (processFactTx today acc t).1.log "duplicate_tx_id" =
        countType acc.1.log "duplicate_tx_id" + 1 := by
  unfold processFactTx
  simp only [ensure_dim_date_dimUser, ensure_dim_date_dimProduct, hu, hp]
  rw [if_pos (by rw [ensure_dim_date_facts]; exact hany)]
  refine ⟨by simp [ensure_dim_date_facts], rfl, rfl, ?_⟩
  simp [countType_log_error, ensure_dim_date_log]

theorem processFactTx_pairs_nodup (today : Day) (acc : OlapState × Nat × Nat) (t : LTx)
    (h : (acc.1.facts.map (fun f => (f.transaction_id, f.product_sk))).Nodup) :
    ((processFactTx today acc t).1.facts.map
      (fun f => (f.transaction_id, f.product_sk))).Nodup := by
  unfold processFactTx
  simp only [ensure_dim_date_dimUser, ensure_dim_date_dimProduct]
  cases h1 : resolveSk acc.1.dimUser.rows t.user_id t.date with
  | none => simpa [ensure_dim_date_facts] using h
  | some usk =>
    cases h2 : resolveSk acc.1.dimProduct.rows t.product_id t.date with
    | none => simpa [ensure_dim_date_facts] using h
    | some psk =>
      dsimp only
      split_ifs with h3
      · simpa [ensure_dim_date_facts] using h
      · rw [ensure_dim_date_facts] at h3
        have hnotin : (t.tx_id, psk) ∉
            acc.1.facts.map (fun f => (f.transaction_id, f.product_sk)) := by
          intro hmem
          obtain ⟨f, hf, hfe⟩ := List.mem_map.1 hmem
          have : acc.1.facts.any
              (fun f => f.transaction_id == t.tx_id && f.product_sk == psk) = true := by
            refine List.any_eq_true.2 ⟨f, hf, ?_⟩
            have h5 : f.transaction_id = t.tx_id := congrArg Prod.fst hfe
            have h6 : f.product_sk = psk := congrArg Prod.snd hfe
            simp [h5, h6]
          exact h3 this
        simp only [ensure_dim_date_facts, List.map_append, List.map_cons, List.map_nil]
        rw [List.nodup_append]
        refine ⟨h, List.nodup_singleton _, ?_⟩
        intro a ha hb
        simp only [List.mem_singleton] at hb
        rw [hb] at ha
        exact hnotin ha

theorem loadTx_fold_pairs_nodup (today : Day) :
    ∀ (l : List LTx) (acc : OlapState × Nat × Nat),
      (acc.1.facts.map (fun f => (f.transaction_id, f.product_sk))).Nodup →
      (((l.foldl (processFactTx today) acc).1).facts.map
        (fun f => (f.transaction_id, f.product_sk))).Nodup := by
  intro l
  induction l with
  | nil => intro acc h; exact h
  | cons t ts ih =>
    intro acc h
    rw [List.foldl_cons]
    exact ih _ (processFactTx_pairs_nodup today acc t h)

theorem VersOK_mono {σ : Type} (d1 d2 : Day) (h : d1 ≤ d2) :
    ∀ vs : List (Scd2Row σ), VersOK d1 vs → VersOK d2 vs := by
  intro vs
  induction vs with
  | nil => intro hv; trivial
  | cons a t ih =>
    cases t with
    | nil => intro hv; exact ⟨hv.1, hv.2.1, le_trans hv.2.2 h⟩
    | cons b t2 => intro hv; exact ⟨hv.1, hv.2.1, hv.2.2.1, ih hv.2.2.2⟩

theorem VersOK_sortedContig {σ : Type} (d : Day) :
    ∀ vs : List (Scd2Row σ), VersOK d vs → sortedContig vs := by
  intro vs
  induction vs with
  | nil => intro hv; exact List.chain'_nil
  | cons a t ih =>
    cases t with
    | nil => intro hv; exact List.chain'_singleton a
    | cons b t2 =>
      intro hv
      exact List.chain'_cons.2 ⟨⟨hv.2.2.1, hv.2.1⟩, ih hv.2.2.2⟩

theorem VersOK_sorted {σ : Type} (d : Day) :
    ∀ vs : List (Scd2Row σ), VersOK d vs →
      List.Chain' (fun a b : Scd2Row σ => a.start_date < b.start_date) vs := by
  intro vs hv
  have h := VersOK_sortedContig d vs hv
  exact List.Chain'.imp (fun a b hab => hab.1) h

theorem sortByStart_sorted_id {σ : Type} :
    ∀ vs : List (Scd2Row σ),
      List.Chain' (fun a b : Scd2Row σ => a.start_date < b.start_date) vs →
      sortByStart vs = vs := by
  intro vs
  induction vs with
  | nil => intro _; rfl
  | cons a t ih =>
    intro hs
    unfold sortByStart
    rw [ih (List.chain'_cons'.1 hs).2]
    cases t with
    | nil => rfl
    | cons b t2 =>
      unfold insertByStart
      rw [if_pos (le_of_lt (List.chain'_cons.1 hs).1)]

theorem findCurrent_eq_find {σ : Type} (k : Int) :
    ∀ rows : List (Scd2Row σ),
      findCurrent rows k = (versions rows k).find? (fun r => r.current) := by
  intro rows
  induction rows with
  | nil => rfl
  | cons r rs ih =>
    unfold findCurrent versions at ih ⊢
    by_cases hk : (r.key == k) = true
    · by_cases hc : r.current = true
      · rw [List.find?_cons_of_pos _ (by simp [hk, hc]), List.filter_cons, if_pos hk,
          List.find?_cons_of_pos _ (by simp [hc])]
      · rw [List.find?_cons_of_neg _ (by simp [hk, hc]), List.filter_cons, if_pos hk,
          List.find?_cons_of_neg _ (by simp [hc])]
        exact ih
    · rw [List.find?_cons_of_neg _ (by simp [hk]), List.filter_cons, if_neg hk]
      exact ih

/-- The current-version lookup against a well-shaped version list: an empty
list yields nothing, otherwise the list splits as closed versions followed
by the single current one, which the lookup returns. -/
theorem VersOK_find_current {σ : Type} (d : Day) :
    ∀ vs : List (Scd2Row σ), VersOK d vs →
      (vs = [] ∧ vs.find? (fun r => r.current) = none) ∨
      (∃ front cur, vs = front ++ [cur] ∧ vs.find? (fun r => r.current) = some cur ∧
        cur.current = true ∧ cur.end_date = none ∧ cur.start_date ≤ d) := by
  intro vs
  induction vs with
  | nil => intro _; exact Or.inl ⟨rfl, rfl⟩
  | cons a t ih =>
    cases t with
    | nil =>
      intro hv
      refine Or.inr ⟨[], a, rfl, ?_, hv.1, hv.2.1, hv.2.2⟩
      rw [List.find?_cons_of_pos _ (by simp [hv.1])]
    | cons b t2 =>
      intro hv
      rcases ih hv.2.2.2 with ⟨habs, _⟩ | ⟨front, cur, heq, hfind, hcur, hend, hstart⟩
      · exact absurd habs (by simp)
      · refine Or.inr ⟨a :: front, cur, by rw [List.cons_append, heq], ?_, hcur, hend, hstart⟩
        rw [List.find?_cons_of_neg _ (by simp [hv.1])]
        exact hfind

theorem closeRow_key {σ : Type} (sk : Nat) (d : Day) (r : Scd2Row σ) :
    (closeRow sk d r).key = r.key := by
  unfold closeRow
  split_ifs <;> rfl

theorem closeRow_sk_eq {σ : Type} (sk : Nat) (d : Day) (r : Scd2Row σ) :
    (closeRow sk d r).sk = r.sk := by
  unfold closeRow
  split_ifs <;> rfl

theorem closeRow_start {σ : Type} (sk : Nat) (d : Day) (r : Scd2Row σ) :
    (closeRow sk d r).start_date = r.start_date := by
  unfold closeRow
  split_ifs <;> rfl

theorem closeRow_not_mem {σ : Type} (sk : Nat) (d : Day) :
    ∀ l : List (Scd2Row σ), (∀ r ∈ l, r.sk ≠ sk) → l.map (closeRow sk d) = l := by
  intro l
  induction l with
  | nil => intro _; rfl
  | cons r rs ih =>
    intro h
    rw [List.map_cons, ih (fun r2 hr2 => h r2 (List.mem_cons_of_mem r hr2))]
    have : closeRow sk d r = r := by
      unfold closeRow
      rw [if_neg (h r (List.mem_cons_self r rs))]
    rw [this]

theorem versions_append {σ : Type} (l1 l2 : List (Scd2Row σ)) (k : Int) :
    versions (l1 ++ l2) k = versions l1 k ++ versions l2 k := by
  unfold versions
  rw [List.filter_append]

theorem versions_map_closeRow {σ : Type} (sk : Nat) (d : Day) (k : Int) :
    ∀ rows : List (Scd2Row σ),
      versions (rows.map (closeRow sk d)) k = (versions rows k).map (closeRow sk d) := by
  intro rows
  induction rows with
  | nil => rfl
  | cons r rs ih =>
    unfold versions at ih ⊢
    simp only [List.map_cons, List.filter_cons, closeRow_key]
    by_cases hk : (r.key == k) = true
    · rw [if_pos hk, if_pos hk, List.map_cons, ih]
    · rw [if_neg hk, if_neg hk]
      exact ih

theorem VersOK_close_append {σ : Type} (d today : Day) (hlt : d < today)
    (nr : Scd2Row σ) (hnrs : nr.start_date = today) (hnrc : nr.current = true)
    (hnre : nr.end_date = none) :
    ∀ (front : List (Scd2Row σ)) (cur : Scd2Row σ),
      VersOK d (front ++ [cur]) →
      VersOK today (front ++
        [{ cur with end_date := some (today - 1), current := false }, nr]) := by
  intro front
  induction front with
  | nil =>
    intro cur hv
    obtain ⟨hc, he, hs⟩ := hv
    refine ⟨rfl, ?_, ?_, hnrc, hnre, le_of_eq hnrs⟩
    · rw [hnrs]
    · show cur.start_date < nr.start_date
      rw [hnrs]
      exact lt_of_le_of_lt hs hlt
  | cons a front2 ih =>
    intro cur hv
    cases front2 with
    | nil =>
      obtain ⟨ha, hae, halt, hrest⟩ := hv
      exact ⟨ha, hae, halt, ih cur hrest⟩
    | cons b front3 =>
      obtain ⟨ha, hae, halt, hrest⟩ := hv
      exact ⟨ha, hae, halt, ih cur hrest⟩

theorem scd2Step_versOK {σ α : Type} [DecidableEq α] (tracked : σ → α) (s : Scd2State σ)
    (key : Int) (data : σ) (anchor dcur today : Day)
    (hwf : SkWF s) (hv : VersOK dcur (versions s.rows key))
    (hd : dcur < today) (hanchor : anchor ≤ today) :
    SkWF (scd2Step tracked s key data anchor today).1 ∧
      VersOK today (versions (scd2Step tracked s key data anchor today).1.rows key) ∧
      ∀ k, k ≠ key → versions (scd2Step tracked s key data anchor today).1.rows k =
        versions s.rows k := by
  have hnextfresh : s.nextSk ∉ s.rows.map (fun r => r.sk) := by
    intro hmem
    obtain ⟨r, hr, hre⟩ := List.mem_map.1 hmem
    exact Nat.ne_of_lt (hwf.2 r hr) hre
  unfold scd2Step
  cases hf : findCurrent s.rows key with
  | none =>
    dsimp only
    have hvempty : versions s.rows key = [] := by
      rw [findCurrent_eq_find] at hf
      rcases VersOK_find_current dcur _ hv with ⟨he, _⟩ | ⟨front, cur, heq, hfind, _⟩
      · exact he
      · rw [hfind] at hf
        cases hf
    refine ⟨⟨?_, ?_⟩, ?_, ?_⟩
    · rw [List.map_append, List.map_cons, List.map_nil, List.nodup_append]
      refine ⟨hwf.1, List.nodup_singleton _, ?_⟩
      intro a ha hb
      simp only [List.mem_singleton] at hb
      rw [hb] at ha
      exact hnextfresh ha
    · intro r hr
      rcases List.mem_append.1 hr with h1 | h1
      · exact Nat.lt_succ_of_lt (hwf.2 r h1)
      · simp only [List.mem_singleton] at h1
        rw [h1]
        exact Nat.lt_succ_self _
    · rw [versions_append, hvempty, List.nil_append]
      have hone : versions [(⟨s.nextSk, key, data, anchor, none, true⟩ : Scd2Row σ)] key =
          [⟨s.nextSk, key, data, anchor, none, true⟩] := by
        unfold versions
        rw [List.filter_cons, if_pos (by simp)]
        rfl
      rw [hone]
      exact ⟨rfl, rfl, hanchor⟩
    · intro k hk
      rw [versions_append]
      have : versions [(⟨s.nextSk, key, data, anchor, none, true⟩ : Scd2Row σ)] k = [] := by
        unfold versions
        rw [List.filter_cons, if_neg (by simp [Ne.symm hk])]
        rfl
      rw [this, List.append_nil]
  | some cur =>
    dsimp only
    have hcurmem : cur ∈ s.rows := by
      unfold findCurrent at hf
      exact List.mem_of_find?_eq_some hf
    split_ifs with hch
    · have hfind2 : (versions s.rows key).find? (fun r => r.current) = some cur := by
        rw [← findCurrent_eq_find]
        exact hf
      rcases VersOK_find_current dcur _ hv with ⟨he, _⟩ | ⟨front, cur2, heq, hfind, hcur, hend, hstart⟩
      · rw [he] at hfind2
        cases hfind2
      · rw [hfind] at hfind2
        have hceq : cur2 = cur := by injection hfind2
        rw [hceq] at heq hcur hend hstart
      -- surrogate keys in this key's version list are distinct
        have hsubl : (versions s.rows key).Sublist s.rows := List.filter_sublist s.rows
        have hnodupv : ((versions s.rows key).map (fun r => r.sk)).Nodup :=
          (hwf.1).sublist (hsubl.map _)
        rw [heq, List.map_append, List.map_cons, List.map_nil, List.nodup_append] at hnodupv
        have hfrontsk : ∀ r ∈ front, r.sk ≠ cur.sk := by
          intro r hr heq2
          exact hnodupv.2.2 (List.mem_map.2 ⟨r, hr, rfl⟩) (by simp [heq2])
        have hfrontid : front.map (closeRow cur.sk (today - 1)) = front :=
          closeRow_not_mem _ _ front hfrontsk
        have hclosecur : closeRow cur.sk (today - 1) cur =
            { cur with end_date := some (today - 1), current := false } := by
          unfold closeRow
          rw [if_pos rfl]
        have hsk_eq_map : ((s.rows.map (closeRow cur.sk (today - 1))).map
            (fun r => r.sk)) = s.rows.map (fun r => r.sk) := by
          rw [List.map_map]
          refine List.map_congr_left ?_
          intro r _
          exact closeRow_sk_eq _ _ r
        refine ⟨⟨?_, ?_⟩, ?_, ?_⟩
        · rw [List.map_append, List.map_cons, List.map_nil, List.nodup_append, hsk_eq_map]
          refine ⟨hwf.1, List.nodup_singleton _, ?_⟩
          intro a ha hb
          simp only [List.mem_singleton] at hb
          rw [hb] at ha
          exact hnextfresh ha
        · intro r hr
          rcases List.mem_append.1 hr with h1 | h1
          · obtain ⟨r0, hr0, hre⟩ := List.mem_map.1 h1
            rw [← hre, closeRow_sk_eq]
            exact Nat.lt_succ_of_lt (hwf.2 r0 hr0)
          · simp only [List.mem_singleton] at h1
            rw [h1]
            exact Nat.lt_succ_self _
        · rw [versions_append, versions_map_closeRow, heq, List.map_append,
            List.map_cons, List.map_nil, hfrontid]
          have hone2 : versions [(⟨s.nextSk, key, data, today, none, true⟩ : Scd2Row σ)] key =
              [(⟨s.nextSk, key, data, today, none, true⟩ : Scd2Row σ)] := by
            unfold versions
            rw [List.filter_cons, if_pos (by simp)]
            rfl
          rw [hone2, List.append_assoc, hclosecur]
          exact VersOK_close_append dcur today hd _ rfl rfl rfl front cur (heq ▸ hv)
        · intro k hk
          rw [versions_append, versions_map_closeRow]
          have hnew : versions [(⟨s.nextSk, key, data, today, none, true⟩ : Scd2Row σ)] k
              = [] := by
            unfold versions
            rw [List.filter_cons, if_neg (by simp [Ne.symm hk])]
            rfl
          rw [hnew, List.append_nil]
          refine closeRow_not_mem _ _ _ ?_
          intro r hr hrsk
          have hrmem : r ∈ s.rows := List.mem_of_mem_filter hr
          have hrk : r.key = k := by
            have := List.of_mem_filter hr
            simpa using this
          have : r = cur := List.inj_on_of_nodup_map hwf.1 hrmem hcurmem hrsk
          have hck : cur.key = key := by
            unfold findCurrent at hf
            have h2 := List.find?_some hf
            simp only [Bool.and_eq_true, beq_iff_eq] at h2
            exact h2.1
          rw [this, hck] at hrk
          exact hk hrk.symm
    · exact ⟨hwf, VersOK_mono dcur today (le_of_lt hd) _ hv, fun k _ => rfl⟩

theorem scd2_fold_versOK {ρ σ α : Type} [DecidableEq α] (key : ρ → Int) (data : ρ → σ)
    (tracked : σ → α) (anchor : ρ → Day → Day) (dcur d : Day) (hd : dcur < d) :
    ∀ (batch : List ρ) (s : Scd2State σ) (c : UpsertCounts),
      SkWF s →
      (batch.map key).Nodup →
      (∀ r ∈ batch, anchor r d ≤ d ∧ VersOK dcur (versions s.rows (key r))) →
      (∀ k, VersOK dcur (versions s.rows k) ∨ VersOK d (versions s.rows k)) →
      SkWF ((batch.foldl (fun acc r =>
          let st := scd2Step tracked acc.1 (key r) (data r) (anchor r d) d
          (st.1, bumpClass acc.2 st.2)) (s, c)).1) ∧
        ∀ k, VersOK dcur (versions ((batch.foldl (fun acc r =>
            let st := scd2Step tracked acc.1 (key r) (data r) (anchor r d) d
            (st.1, bumpClass acc.2 st.2)) (s, c)).1).rows k) ∨
          VersOK d (versions ((batch.foldl (fun acc r =>
            let st := scd2Step tracked acc.1 (key r) (data r) (anchor r d) d
            (st.1, bumpClass acc.2 st.2)) (s, c)).1).rows k) := by
  intro batch
  induction batch with
  | nil => intro s c hwf _ _ hdisj; exact ⟨hwf, hdisj⟩
  | cons r rs ih =>
    intro s c hwf hnodup hbatch hdisj
    rw [List.foldl_cons]
    obtain ⟨hwf1, hself, hother⟩ := scd2Step_versOK tracked s (key r) (data r)
      (anchor r d) dcur d hwf (hbatch r (List.mem_cons_self r rs)).2 hd
      (hbatch r (List.mem_cons_self r rs)).1
    have hnodup2 : (key r :: rs.map key).Nodup := by
      rw [← List.map_cons]
      exact hnodup
    have hnd := List.nodup_cons.1 hnodup2
    have hkeyfresh : ∀ r2 ∈ rs, key r2 ≠ key r := by
      intro r2 hr2 heq
      exact hnd.1 (List.mem_map.2 ⟨r2, hr2, heq⟩)
    refine ih _ (bumpClass c (scd2Step tracked s (key r) (data r) (anchor r d) d).2) hwf1
      hnd.2 ?_ ?_
    · intro r2 hr2
      refine ⟨(hbatch r2 (List.mem_cons_of_mem r hr2)).1, ?_⟩
      rw [hother (key r2) (hkeyfresh r2 hr2)]
      exact (hbatch r2 (List.mem_cons_of_mem r hr2)).2
    · intro k
      by_cases hk : k = key r
      · rw [hk]
        exact Or.inr hself
      · rw [hother k hk]
        exact hdisj k

theorem scd2_runs_versOK {ρ σ α : Type} [DecidableEq α] (key : ρ → Int) (data : ρ → σ)
    (tracked : σ → α) (anchor : ρ → Day → Day) :
    ∀ (runs : List (List ρ × Day)) (s : Scd2State σ) (dcur : Day),
      SkWF s →
      (∀ k, VersOK dcur (versions s.rows k)) →
      List.Chain' (· < ·) (dcur :: runs.map Prod.snd) →
      (∀ q ∈ runs, (q.1.map key).Nodup ∧ ∀ r ∈ q.1, anchor r q.2 ≤ q.2) →
      ∃ d2, SkWF (runs.foldl
          (fun st q => (scd2Upsert key data tracked anchor st q.1 q.2).1) s) ∧
        ∀ k, VersOK d2 (versions ((runs.foldl
          (fun st q => (scd2Upsert key data tracked anchor st q.1 q.2).1) s)).rows k) := by
  intro runs
  induction runs with
  | nil => intro s dcur hwf hv _ _; exact ⟨dcur, hwf, hv⟩
  | cons q rest ih =>
    intro s dcur hwf hv hchain hruns
    obtain ⟨hd, hchain2⟩ := List.chain'_cons.1 hchain
    rw [List.foldl_cons]
    obtain ⟨hwf1, hdisj⟩ := scd2_fold_versOK key data tracked anchor dcur q.2 hd q.1 s
      ⟨0, 0, 0⟩ hwf (hruns q (List.mem_cons_self q rest)).1
      (fun r hr => ⟨(hruns q (List.mem_cons_self q rest)).2 r hr, hv (key r)⟩)
      (fun k => Or.inl (hv k))
    exact ih (scd2Upsert key data tracked anchor s q.1 q.2).1 q.2 hwf1
      (fun k => (hdisj k).elim (VersOK_mono dcur q.2 (le_of_lt hd) _) id)
      hchain2 (fun q2 hq2 => hruns q2 (List.mem_cons_of_mem q hq2))

end Ecom

/-- C8: `validate_products` rejects every product whose price is at least
10000 (the boundary 10000.00 included), logging an error entry for the
record; it accepts a product priced 9999.99 whose stock is non-negative; and
it rejects every product with negative stock. -/
theorem c8_product_price_boundary (st : Ecom.LogState) (products : List Ecom.SrcProduct)
    (p : Ecom.SrcProduct) (hp : p ∈ products) :
    (10000 ≤ p.price →
      p ∈ (Ecom.validate_products st products).2.2 ∧
        ∃ e ∈ (Ecom.validate_products st products).1.entries,
          e.recordId = toString p.product_id ∧ e.errorType = "price_ge_10000" ∧
            e.severity = "error") ∧
      (p.price = 999999 / 100 → 0 ≤ p.stock → p ∈ (Ecom.validate_products st products).2.1) ∧
      (p.stock < 0 → p ∈ (Ecom.validate_products st products).2.2) := by
  obtain ⟨h1, h2, h3⟩ := Ecom.partitionLog_spec Ecom.processProductEtl Ecom.productOk
    Ecom.productEnts Ecom.processProductEtl_dec Ecom.processProductEtl_ents products st
  unfold Ecom.validate_products
  rw [h1, h2, h3]
  refine ⟨fun hprice => ⟨?_, ?_⟩, fun hprice hstock => ?_, fun hstock => ?_⟩
  · refine List.mem_filter.2 ⟨hp, ?_⟩
    simp [Ecom.productOk, hprice]
  · refine ⟨⟨"product", "dim_product", toString p.product_id, "price_ge_10000",
      "Product price ge 10000 for " ++ toString p.product_id, "error"⟩, ?_, rfl, rfl, rfl⟩
    refine List.mem_append.2 (Or.inr (List.mem_flatten.2 ⟨Ecom.productEnts p, ?_, ?_⟩))
    · exact List.mem_map.2 ⟨p, hp, rfl⟩
    · simp [Ecom.productEnts, hprice]
  · refine List.mem_filter.2 ⟨hp, ?_⟩
    have hlt : ¬(10000 ≤ p.price) := by rw [hprice]; norm_num
    simp [Ecom.productOk, hlt, not_lt.2 hstock]
  · refine List.mem_filter.2 ⟨hp, ?_⟩
    simp [Ecom.productOk, hstock]

/-- Witness for C8 at a concrete batch holding the boundary price 10000.00,
the price 9999.99, and a negative stock. -/
theorem c8_product_price_boundary_witness :
    (10000 ≤ c8pA.price ∧ c8pA ∈ (Ecom.validate_products Ecom.logState0 c8batch).2.2) ∧
      (c8pB.price = 999999 / 100 ∧ 0 ≤ c8pB.stock ∧
        c8pB ∈ (Ecom.validate_products Ecom.logState0 c8batch).2.1) ∧
      (c8pC.stock < 0 ∧ c8pC ∈ (Ecom.validate_products Ecom.logState0 c8batch).2.2) := by
  refine ⟨⟨by norm_num [c8pA], ?_⟩, ⟨rfl, by norm_num [c8pB], ?_⟩, ⟨by norm_num [c8pC], ?_⟩⟩
  · exact ((c8_product_price_boundary Ecom.logState0 c8batch c8pA
      (by simp [c8batch])).1 (by norm_num [c8pA])).1
  · exact (c8_product_price_boundary Ecom.logState0 c8batch c8pB
      (by simp [c8batch])).2.1 rfl (by norm_num [c8pB])
  · exact (c8_product_price_boundary Ecom.logState0 c8batch c8pC
      (by simp [c8batch])).2.2 (by norm_num [c8pC])

/-- C3 (evidence of the code bug): validating a user with an empty name logs
an anomaly whose error type is the string `invalid_user`, which is not a
member of the closed `DQ_METRICS` taxonomy, so the `invalid_user_records`
counter — and every other taxonomy counter — stays 0 even though one error
was logged; more generally every error-type string the pipeline emits except
`duplicate_tx_id` lies outside the taxonomy. -/
theorem c3_dq_counter_never_incremented :
    ((Ecom.validate_users Ecom.logState0 [⟨1, some "", some "a@b.c", some 0⟩]).1.entries.map
        (fun e => e.errorType)) = ["invalid_user"] ∧
      "invalid_user" ∉ Ecom.dqKeys ∧
      (Ecom.validate_users Ecom.logState0 [⟨1, some "", some "a@b.c", some 0⟩]).1.errors = 1 ∧
      Ecom.dqVal (Ecom.validate_users Ecom.logState0
        [⟨1, some "", some "a@b.c", some 0⟩]).1 "invalid_user_records" = 0 ∧
      (∀ k ∈ Ecom.dqKeys,
        Ecom.dqVal (Ecom.validate_users Ecom.logState0
          [⟨1, some "", some "a@b.c", some 0⟩]).1 k = 0) ∧
      (∀ ty ∈ ["invalid_user", "price_ge_10000", "negative_stock", "orphan_user",
          "orphan_product", "qty_zero", "qty_negative", "invalid_payment_type",
          "invalid_status", "bad_date_format", "price_mismatch"],
        ty ∉ Ecom.dqKeys) ∧
      "duplicate_tx_id" ∈ Ecom.dqKeys := by
  decide

/-- C4 counterexample: a user with both an empty name and an invalid email
fails two rules, yet the validator the pipeline runs
(`validate_users` in src/ETL/etl.py) logs exactly one error entry for it,
not two — the rules short-circuit. -/
theorem c4_per_rule_logging_counterexample :
    Ecom.userFailCount ⟨1, some "", some "notanemail", some 0⟩ = 2 ∧
      (Ecom.validate_users Ecom.logState0
        [⟨1, some "", some "notanemail", some 0⟩]).1.entries.length = 1 := by
  decide

/-- C4 amended: the class-based validator (`DataValidator.validate_users`,
src/ETL/validation.py) evaluates the rules independently and logs exactly one
entry per failing rule, so a batch produces one entry per (record, failing
rule) pair and a record is rejected iff it fails at least one rule; the
free-function validator the pipeline runs (`validate_users`, src/ETL/etl.py)
short-circuits at the first failing rule and logs exactly one entry per
rejected record. -/
theorem c4_rule_logging_cardinality (st : Ecom.LogState) (users : List Ecom.SrcUser) :
    (Ecom.dv_validate_users st users).1.entries.length =
        st.entries.length + (users.map Ecom.userFailCount).sum ∧
      (Ecom.dv_validate_users st users).2.2 =
        users.filter (fun u => Ecom.userFailCount u ≠ 0) ∧
      (Ecom.validate_users st users).1.entries.length =
        st.entries.length + users.countP (fun u => !Ecom.userOk u) := by
  obtain ⟨hd1, _, hd3⟩ := Ecom.partitionLog_spec Ecom.processUserDV Ecom.userOk
    Ecom.userEntsDV Ecom.processUserDV_dec Ecom.processUserDV_ents users st
  obtain ⟨he1, _, _⟩ := Ecom.partitionLog_spec Ecom.processUserEtl Ecom.userOk
    Ecom.userEntsEtl Ecom.processUserEtl_dec Ecom.processUserEtl_ents users st
  refine ⟨?_, ?_, ?_⟩
  · unfold Ecom.dv_validate_users
    rw [hd1]
    simp only [List.length_append, List.length_flatten, List.map_map]
    congr 1
    simp only [Function.comp_def, Ecom.userEntsDV_length]
  · unfold Ecom.dv_validate_users
    rw [hd3]
    refine List.filter_congr ?_
    intro u _
    rw [Ecom.userOk_eq_failCount_zero]
  · unfold Ecom.validate_users
    rw [he1]
    simp only [List.length_append, List.length_flatten, List.map_map]
    congr 1
    rw [← Ecom.sum_map_ite_one (fun u => !Ecom.userOk u)]
    refine congrArg List.sum (List.map_congr_left ?_)
    intro u _
    simp only [Function.comp_def, Ecom.userEntsEtl_length]
    cases h : Ecom.userOk u <;> simp [h]

/-- C10: in `validate_transactions` the catalog price-mismatch check that
divides `total_price` by `quantity` is reached only after the zero- and
negative-quantity rejections, so its guard entails a strictly positive
quantity — in the free-function validator (first two conjuncts characterise
the two validators' guards) — and whenever processing a record changes the
number of `price_mismatch` log entries, that guard held. -/
theorem c10_mismatch_division_guarded (ctx : Ecom.TxCtx) (t : Ecom.SrcTx) :
    (Ecom.reachesPriceCheck ctx t = true → 0 < t.quantity) ∧
      (Ecom.dvReachesPriceCheck ctx t = true → 0 < t.quantity) ∧
      (∀ (st : Ecom.LogState) (seen : List Int),
        Ecom.countType (Ecom.processTxEtl ctx st seen t).1 "price_mismatch" ≠
            Ecom.countType st "price_mismatch" →
          Ecom.reachesPriceCheck ctx t = true) := by
  refine ⟨?_, ?_, ?_⟩
  · intro h
    simp only [Ecom.reachesPriceCheck, Bool.and_eq_true, decide_eq_true_eq,
      Bool.not_eq_true', decide_eq_false_iff_not] at h
    omega
  · intro h
    simp only [Ecom.dvReachesPriceCheck, Bool.and_eq_true, decide_eq_true_eq] at h
    exact h.2
  · intro st seen h
    cases hr : Ecom.reachesPriceCheck ctx t with
    | false =>
      exact absurd (Ecom.processTxEtl_mismatch_count_of_unreached ctx t hr st seen) h
    | true => rfl

/-- Witness for C10: a concrete context and record under which the
price-mismatch check is reached, and its quantity is positive. -/
theorem c10_mismatch_division_guarded_witness :
    Ecom.reachesPriceCheck c10ctx c10tx = true ∧ 0 < c10tx.quantity :=
  ⟨by decide, (c10_mismatch_division_guarded c10ctx c10tx).1 (by decide)⟩

/-- C7 counterexample: on the input string `2026-02-01T00/0` the claimed
try-the-four-formats-in-priority-order discipline (`parse_date_spec`, built
from the claim's words) succeeds via the third format, while the parser the
source implements rejects the string, because the presence of a slash
commits it to the `YYYY/MM/DD` branch exclusively. -/
theorem c7_parse_priority_counterexample :
    Ecom.parse_date "2026-02-01T00/0" = none ∧
      Ecom.parse_date_spec "2026-02-01T00/0" = some ⟨2026, 2, 1⟩ ∧
      Ecom.parse_date "2026-02-01T00/0" ≠ Ecom.parse_date_spec "2026-02-01T00/0" := by
  refine ⟨by decide, by decide, by decide⟩

/-- C7 amended: validation first tries ISO `YYYY-MM-DD`; if that fails it
selects exactly one fallback by content — `YYYY/MM/DD` when the string
contains a slash, else the date portion before `T` parsed as ISO when it
contains a `T`, else compact `YYYYMMDD` when it is eight digits — and
failure of the selected fallback (or no fallback applying) rejects the
record with the bad-date error; an accepted date is rewritten to canonical
`YYYY-MM-DD`, and in particular `2026/02/01` is accepted via the slash
format as `2026-02-01`. -/
theorem c7_date_parsing_dispatch :
    (∀ (s : String) (d : Ecom.CalDate),
      Ecom.strptimeYMD '-' s = some d → Ecom.parse_date s = some d) ∧
      (∀ s : String, Ecom.strptimeYMD '-' s = none → Ecom.hasChar '/' s = true →
        Ecom.parse_date s = Ecom.strptimeYMD '/' s) ∧
      (∀ s : String, Ecom.strptimeYMD '-' s = none → Ecom.hasChar '/' s = false →
        Ecom.hasChar 'T' s = true → Ecom.parse_date s = Ecom.fromIsoDatePart s) ∧
      (∀ s : String, Ecom.strptimeYMD '-' s = none → Ecom.hasChar '/' s = false →
        Ecom.hasChar 'T' s = false →
        Ecom.parse_date s =
          (if s.toList.length = 8 && Ecom.allDigits s.toList then Ecom.strptimeCompact s
            else none)) ∧
      ((Ecom.validate_transactions ⟨[7], [8], []⟩ Ecom.logState0
          [⟨1, "2026/02/01", 7, 8, 3, 30, some "visa", some "success"⟩]).2.1.map
            (fun n => n.date) = ["2026-02-01"]) ∧
      (∀ (ctx : Ecom.TxCtx) (st : Ecom.LogState) (seen : List Int) (t : Ecom.SrcTx),
        Ecom.parse_date t.date = none →
          (Ecom.processTxEtl ctx st seen t).2.2 = none ∧
            (ctx.validUserIds.contains t.user_id = true →
              ctx.validProductIds.contains t.product_id = true →
              t.quantity ≠ 0 → ¬(t.quantity < 0) →
              Ecom.valid_payment_types.contains (Ecom.normOpt t.payment_type) = true →
              Ecom.valid_statuses.contains (Ecom.normOpt t.status) = true →
              Ecom.countType (Ecom.processTxEtl ctx st seen t).1 "bad_date_format" =
                Ecom.countType st "bad_date_format" + 1)) := by
  refine ⟨?_, ?_, ?_, ?_, by decide, ?_⟩
  · intro s d h
    simp [Ecom.parse_date, h]
  · intro s h hs
    simp [Ecom.parse_date, h, hs]
  · intro s h hs ht
    simp [Ecom.parse_date, h, hs, ht]
  · intro s h hs ht
    simp [Ecom.parse_date, h, hs, ht]
  · intro ctx st seen t hdate
    constructor
    · unfold Ecom.processTxEtl
      split_ifs <;> first | rfl | rw [hdate]
    · intro hu hp hq hqn hpay hst
      have hu2 : t.user_id ∈ ctx.validUserIds := by simpa using hu
      have hp2 : t.product_id ∈ ctx.validProductIds := by simpa using hp
      have hpay2 : Ecom.normOpt t.payment_type ∈ Ecom.valid_payment_types := by
        simpa using hpay
      have hst2 : Ecom.normOpt t.status ∈ Ecom.valid_statuses := by simpa using hst
      unfold Ecom.processTxEtl
      rw [hdate]
      simp [hu2, hp2, hq, hqn, hpay2, hst2, Ecom.countType_log_error]

/-- Witness for C7 (amended): the ISO format takes priority on a concrete
well-formed date, via the first conjunct of the theorem. -/
theorem c7_date_parsing_dispatch_witness :
    Ecom.strptimeYMD '-' "2026-02-01" = some ⟨2026, 2, 1⟩ ∧
      Ecom.parse_date "2026-02-01" = some ⟨2026, 2, 1⟩ :=
  ⟨by decide, c7_date_parsing_dispatch.1 "2026-02-01" ⟨2026, 2, 1⟩ (by decide)⟩

/-- C1: if before a run each business key has at most one current row in
`dim_user` / `dim_product` and the validated batch holds at most one record
per key, then after `upsert_dim_user` / `upsert_dim_product` each key still
has at most one current row; moreover an insert leaves exactly one current
row for a previously absent key, and the unchanged case writes nothing. -/
theorem c1_at_most_one_current (su : Ecom.Scd2State Ecom.UserData)
    (sp : Ecom.Scd2State Ecom.ProdData) (users : List Ecom.LUser)
    (products : List Ecom.LProd) (today : Ecom.Day)
    (hu : ∀ k, Ecom.currentCount su.rows k ≤ 1)
    (hp : ∀ k, Ecom.currentCount sp.rows k ≤ 1)
    (hnu : (users.map (fun u => u.user_id)).Nodup)
    (hnp : (products.map (fun p => p.product_id)).Nodup) :
    (∀ k, Ecom.currentCount (Ecom.upsert_dim_user su users today).1.rows k ≤ 1) ∧
      (∀ k, Ecom.currentCount (Ecom.upsert_dim_product sp products today).1.rows k ≤ 1) ∧
      (∀ u : Ecom.LUser, Ecom.findCurrent su.rows u.user_id = none →
        Ecom.currentCount (Ecom.upsert_dim_user su [u] today).1.rows u.user_id = 1) ∧
      (∀ (u : Ecom.LUser) (cur : Ecom.Scd2Row Ecom.UserData),
        Ecom.findCurrent su.rows u.user_id = some cur →
        (cur.data.1, cur.data.2.1) = (u.name, u.email) →
        (Ecom.upsert_dim_user su [u] today).1 = su) := by
  refine ⟨?_, ?_, ?_, ?_⟩
  · intro k
    exact Ecom.scd2_fold_le (fun u => u.user_id) (fun u => (u.name, u.email, u.join_date))
      (fun d => (d.1, d.2.1)) (fun u _ => u.join_date) today users su ⟨0, 0, 0⟩ hu k
  · intro k
    exact Ecom.scd2_fold_le (fun p => p.product_id) (fun p => (p.name, p.category, p.price))
      (fun d => d) (fun _ t => t) today products sp ⟨0, 0, 0⟩ hp k
  · intro u hf
    unfold Ecom.upsert_dim_user Ecom.scd2Upsert
    simp only [List.foldl_cons, List.foldl_nil]
    unfold Ecom.scd2Step
    rw [hf]
    simp only
    rw [Ecom.currentCount_append, Ecom.currentCount_singleton,
      Ecom.findCurrent_none_count su.rows u.user_id hf]
    simp
  · intro u cur hf heq
    unfold Ecom.upsert_dim_user Ecom.scd2Upsert
    simp only [List.foldl_cons, List.foldl_nil]
    unfold Ecom.scd2Step
    rw [hf]
    simp only [Prod.mk.injEq] at heq
    simp [heq.1, heq.2]

/-- Witness for C1: a fresh dimension state and singleton batches. -/
theorem c1_at_most_one_current_witness :
    (∀ k, Ecom.currentCount
      (Ecom.upsert_dim_user Ecom.scd2Empty [⟨1, "A", "a@b.c", 10⟩] 100).1.rows k ≤ 1) ∧
      (∀ k, Ecom.currentCount
        (Ecom.upsert_dim_product Ecom.scd2Empty [⟨2, "P", "cat", 5, 3⟩] 100).1.rows k ≤ 1) := by
  have h := c1_at_most_one_current Ecom.scd2Empty Ecom.scd2Empty [⟨1, "A", "a@b.c", 10⟩]
    [⟨2, "P", "cat", 5, 3⟩] 100
    (fun k => by simp [Ecom.currentCount, Ecom.scd2Empty])
    (fun k => by simp [Ecom.currentCount, Ecom.scd2Empty])
    (by decide) (by decide)
  exact ⟨h.1, h.2.1⟩

/-- C2: re-loading the same validated transaction batch is idempotent: every
transaction whose business id already appears in `fact_transactions` is
dropped by the pre-filter before any per-record processing (third conjunct),
and a second run over an identical batch reports `inserted = 0` and leaves
the fact table unchanged (first and second conjuncts). -/
theorem c2_transaction_load_idempotent (s : Ecom.OlapState) (batch : List Ecom.LTx)
    (d1 d2 : Ecom.Day) :
    (Ecom.load_fact_transactions (Ecom.load_fact_transactions s batch d1).1 batch d2).2.1 = 0 ∧
      (Ecom.load_fact_transactions
          (Ecom.load_fact_transactions s batch d1).1 batch d2).1.facts =
        (Ecom.load_fact_transactions s batch d1).1.facts ∧
      Ecom.load_fact_transactions s batch d1 =
        Ecom.load_fact_transactions s
          (batch.filter (fun t =>
            !(s.facts.map (fun f => f.transaction_id)).contains t.tx_id)) d1 := by
  have hff : (batch.filter (fun t =>
        !(s.facts.map (fun f => f.transaction_id)).contains t.tx_id)).filter
        (fun t => !(s.facts.map (fun f => f.transaction_id)).contains t.tx_id) =
      batch.filter (fun t =>
        !(s.facts.map (fun f => f.transaction_id)).contains t.tx_id) := by
    rw [List.filter_filter]
    congr 1
    funext a
    exact Bool.and_self _
  have hmech : Ecom.load_fact_transactions s batch d1 =
      Ecom.load_fact_transactions s
        (batch.filter (fun t =>
          !(s.facts.map (fun f => f.transaction_id)).contains t.tx_id)) d1 := by
    rw [Ecom.load_fact_transactions_eq, Ecom.load_fact_transactions_eq, hff]
  have hboth : (Ecom.load_fact_transactions
        (Ecom.load_fact_transactions s batch d1).1 batch d2).2.1 = 0 ∧
      (Ecom.load_fact_transactions
          (Ecom.load_fact_transactions s batch d1).1 batch d2).1.facts =
        (Ecom.load_fact_transactions s batch d1).1.facts := by
    cases hnil : (batch.filter (fun t =>
        !(s.facts.map (fun f => f.transaction_id)).contains t.tx_id)).isEmpty with
    | true =>
      have h1 : Ecom.load_fact_transactions s batch d1 = (s, 0, 0) := by
        rw [Ecom.load_fact_transactions_eq, hnil, if_pos rfl]
      rw [h1]
      have h2 : Ecom.load_fact_transactions s batch d2 = (s, 0, 0) := by
        rw [Ecom.load_fact_transactions_eq, hnil, if_pos rfl]
      rw [h2]
      exact ⟨rfl, rfl⟩
    | false =>
      have h1 : Ecom.load_fact_transactions s batch d1 =
          (batch.filter (fun t =>
            !(s.facts.map (fun f => f.transaction_id)).contains t.tx_id)).foldl
            (Ecom.processFactTx d1) (s, 0, 0) := by
        rw [Ecom.load_fact_transactions_eq, hnil, if_neg Bool.false_ne_true]
      rw [h1]
      obtain ⟨hdu, hdp⟩ := Ecom.loadTx_fold_dims d1 (batch.filter (fun t =>
        !(s.facts.map (fun f => f.transaction_id)).contains t.tx_id)) (s, 0, 0)
      obtain ⟨δ, hδ⟩ := Ecom.loadTx_fold_facts_append d1 (batch.filter (fun t =>
        !(s.facts.map (fun f => f.transaction_id)).contains t.tx_id)) (s, 0, 0)
      have hall : ∀ t ∈ batch.filter (fun t =>
          !(((batch.filter (fun t =>
            !(s.facts.map (fun f => f.transaction_id)).contains t.tx_id)).foldl
            (Ecom.processFactTx d1) (s, 0, 0)).1.facts.map
              (fun f => f.transaction_id)).contains t.tx_id),
          Ecom.txResolves
            ((batch.filter (fun t =>
              !(s.facts.map (fun f => f.transaction_id)).contains t.tx_id)).foldl
              (Ecom.processFactTx d1) (s, 0, 0)).1.dimUser
            ((batch.filter (fun t =>
              !(s.facts.map (fun f => f.transaction_id)).contains t.tx_id)).foldl
              (Ecom.processFactTx d1) (s, 0, 0)).1.dimProduct t = false := by
        intro t ht
        obtain ⟨htb, htc⟩ := List.mem_filter.1 ht
        simp only [Bool.not_eq_true'] at htc
        have htc2 : t.tx_id ∉ ((batch.filter (fun t =>
            !(s.facts.map (fun f => f.transaction_id)).contains t.tx_id)).foldl
            (Ecom.processFactTx d1) (s, 0, 0)).1.facts.map (fun f => f.transaction_id) := by
          simpa using htc
        cases hres : Ecom.txResolves
            ((batch.filter (fun t =>
              !(s.facts.map (fun f => f.transaction_id)).contains t.tx_id)).foldl
              (Ecom.processFactTx d1) (s, 0, 0)).1.dimUser
            ((batch.filter (fun t =>
              !(s.facts.map (fun f => f.transaction_id)).contains t.tx_id)).foldl
              (Ecom.processFactTx d1) (s, 0, 0)).1.dimProduct t with
        | false => rfl
        | true =>
          exfalso
          rw [hdu, hdp] at hres
          have hm0 : t.tx_id ∉ s.facts.map (fun f => f.transaction_id) := by
            intro hmem
            apply htc2
            rw [hδ]
            simp only [List.map_append, List.mem_append]
            exact Or.inl hmem
          have htb1 : t ∈ batch.filter (fun t =>
              !(s.facts.map (fun f => f.transaction_id)).contains t.tx_id) := by
            refine List.mem_filter.2 ⟨htb, ?_⟩
            simpa using hm0
          have hidmem := Ecom.loadTx_fold_id_mem d1 (batch.filter (fun t =>
            !(s.facts.map (fun f => f.transaction_id)).contains t.tx_id)) (s, 0, 0) t htb1
            (by simpa using hres)
          exact htc2 hidmem
      rw [Ecom.load_fact_transactions_eq]
      cases hnil2 : (batch.filter (fun t =>
          !(((batch.filter (fun t =>
            !(s.facts.map (fun f => f.transaction_id)).contains t.tx_id)).foldl
            (Ecom.processFactTx d1) (s, 0, 0)).1.facts.map
              (fun f => f.transaction_id)).contains t.tx_id)).isEmpty with
      | true =>
        rw [if_pos rfl]
        exact ⟨rfl, rfl⟩
      | false =>
        rw [if_neg Bool.false_ne_true]
        obtain ⟨hsf, hsi⟩ := Ecom.loadTx_fold_skip d2 (batch.filter (fun t =>
          !(((batch.filter (fun t =>
            !(s.facts.map (fun f => f.transaction_id)).contains t.tx_id)).foldl
            (Ecom.processFactTx d1) (s, 0, 0)).1.facts.map
              (fun f => f.transaction_id)).contains t.tx_id))
          (((batch.filter (fun t =>
            !(s.facts.map (fun f => f.transaction_id)).contains t.tx_id)).foldl
            (Ecom.processFactTx d1) (s, 0, 0)).1, 0, 0) hall
        exact ⟨hsi, hsf⟩
  exact ⟨hboth.1, hboth.2, hmech⟩

/-- C6: for a validated product whose current surrogate key resolves, one
stock-loader step appends a history row exactly when no stock row exists for
the key or the most recently recorded stock (greatest date key) differs from
the snapshot, and otherwise writes nothing and counts a skip; consequently,
over any sequence of runs on strictly increasing dates starting from an
empty history for the key, the history row count for the product equals the
number of observed stock changes. -/
theorem c6_stock_history_change_only :
    (∀ (acc : Ecom.OlapState × Nat × Nat) (p : Ecom.LProd) (today : Ecom.Day) (sk : Nat),
      Ecom.currentSk acc.1.dimProduct.rows p.product_id = some sk →
        ((Ecom.processStock today acc p).1.stockHist =
            acc.1.stockHist ++ [⟨sk, today, p.stock, today⟩] ↔
          (Ecom.lastStockRow acc.1.stockHist sk = none ∨
            (Ecom.lastStockRow acc.1.stockHist sk).map (fun r => r.stock) ≠ some p.stock)) ∧
        (¬(Ecom.lastStockRow acc.1.stockHist sk = none ∨
            (Ecom.lastStockRow acc.1.stockHist sk).map (fun r => r.stock) ≠ some p.stock) →
          (Ecom.processStock today acc p).1.stockHist = acc.1.stockHist ∧
            (Ecom.processStock today acc p).2.2 = acc.2.2 + 1)) ∧
      (∀ (base : Ecom.LProd) (sk : Nat) (s : Ecom.OlapState) (runs : List (Ecom.Day × Int)),
        Ecom.currentSk s.dimProduct.rows base.product_id = some sk →
        s.stockHist.filter (fun r2 => r2.product_sk == sk) = [] →
        (runs.map (fun q => q.1)).Pairwise (· < ·) →
        ((Ecom.runStockSeq base s runs).stockHist.filter
          (fun r2 => r2.product_sk == sk)).length =
          Ecom.observedChanges none (runs.map (fun q => q.2))) := by
  constructor
  · intro acc p today sk hres
    have hchar := Ecom.processStock_char today acc p sk hres
    have hiso : ((Ecom.lastStockRow acc.1.stockHist sk).isNone = true ∨
        (Ecom.lastStockRow acc.1.stockHist sk).map (fun r => r.stock) ≠ some p.stock) ↔
        (Ecom.lastStockRow acc.1.stockHist sk = none ∨
          (Ecom.lastStockRow acc.1.stockHist sk).map (fun r => r.stock) ≠ some p.stock) := by
      rw [Option.isNone_iff_eq_none]
    split_ifs at hchar with hc
    · refine ⟨⟨fun _ => hiso.1 hc, fun _ => hchar.1⟩, fun hneg => absurd (hiso.1 hc) hneg⟩
    · have hnc := fun h => hc (hiso.2 h)
      refine ⟨⟨fun heq => ?_, fun h => absurd h hnc⟩, fun _ => hchar⟩
      rw [hchar.1] at heq
      exact absurd (congrArg List.length heq) (by simp)
  · intro base sk s runs hres hemp hpair
    have hlast : (Ecom.lastStockRow s.stockHist sk).map (fun r => r.stock) = none := by
      rw [Ecom.lastStockRow_of_filter_nil s.stockHist sk hemp]
      rfl
    have hdates : ∀ r ∈ s.stockHist.filter (fun r2 => r2.product_sk == sk),
        ∀ q ∈ runs, r.date_id < q.1 := by
      intro r hr
      rw [hemp] at hr
      simp at hr
    have h := Ecom.runStockSeq_count base sk runs s none hres hlast hdates hpair
    rw [h, hemp]
    simp

/-- Witness for C6: a concrete state with one current product version, an
empty stock history, and a snapshot; the loader appends exactly one row. -/
theorem c6_stock_history_change_only_witness :
    Ecom.currentSk c6state.dimProduct.rows c6prod.product_id = some 1 ∧
      ((Ecom.processStock 100 (c6state, 0, 0) c6prod).1.stockHist =
          c6state.stockHist ++ [⟨1, 100, c6prod.stock, 100⟩] ↔
        (Ecom.lastStockRow c6state.stockHist 1 = none ∨
          (Ecom.lastStockRow c6state.stockHist 1).map (fun r => r.stock) ≠
            some c6prod.stock)) :=
  ⟨by decide,
    ((c6_stock_history_change_only.1 (c6state, 0, 0) c6prod 100 1 (by decide)).1)⟩

/-- C9 counterexample: two otherwise-valid transactions share business id 555
but reference different products; the composite primary key
`(transaction_id, product_sk)` does not collide, so both rows are inserted
and two FactTransaction rows carry the same business transaction id after
the run — the claim's "at most one row per business transaction id" fails. -/
theorem c9_duplicate_tx_counterexample :
    c9txA.tx_id = c9txB.tx_id ∧
      ((Ecom.load_fact_transactions c9stateA [c9txA, c9txB] 50).1.facts.filter
        (fun f => f.transaction_id == 555)).length = 2 := by
  refine ⟨rfl, by decide⟩

/-- C9 amended: within one batch a repeated business id is logged as a
`duplicate_tx_id` warning during validation and the record is retained; at
load time, when the two records resolve to the same product surrogate key,
the first is inserted and the second hits the composite
`(transaction_id, product_sk)` uniqueness constraint, is caught, logged as a
`duplicate_tx_id` warning and counted as skipped without aborting the batch;
the loader therefore keeps at most one row per (transaction id, product
surrogate key) pair — not per transaction id alone. -/
theorem c9_duplicate_tx_handling :
    ((Ecom.validate_transactions ⟨[1], [10], []⟩ Ecom.logState0
        [⟨555, "2026-02-01", 1, 10, 1, 5, some "visa", some "success"⟩,
          ⟨555, "2026-02-01", 1, 10, 2, 5, some "visa", some "success"⟩]).2.1.length = 2 ∧
      Ecom.countType (Ecom.validate_transactions ⟨[1], [10], []⟩ Ecom.logState0
        [⟨555, "2026-02-01", 1, 10, 1, 5, some "visa", some "success"⟩,
          ⟨555, "2026-02-01", 1, 10, 2, 5, some "visa", some "success"⟩]).1
        "duplicate_tx_id" = 1) ∧
      (∀ (s : Ecom.OlapState) (t1 t2 : Ecom.LTx) (today : Ecom.Day) (usk1 usk2 psk : Nat),
        t1.tx_id = t2.tx_id →
        (s.facts.map (fun f => f.transaction_id)).contains t1.tx_id = false →
        Ecom.resolveSk s.dimUser.rows t1.user_id t1.date = some usk1 →
        Ecom.resolveSk s.dimProduct.rows t1.product_id t1.date = some psk →
        Ecom.resolveSk s.dimUser.rows t2.user_id t2.date = some usk2 →
        Ecom.resolveSk s.dimProduct.rows t2.product_id t2.date = some psk →
        (Ecom.load_fact_transactions s [t1, t2] today).2.1 = 1 ∧
          (Ecom.load_fact_transactions s [t1, t2] today).2.2 = 1 ∧
          (Ecom.load_fact_transactions s [t1, t2] today).1.facts = s.facts ++
            [⟨t1.tx_id, usk1, psk, t1.date, t1.quantity, t1.total, t1.payment_type,
              t1.status, today⟩] ∧
          Ecom.countType (Ecom.load_fact_transactions s [t1, t2] today).1.log
            "duplicate_tx_id" = Ecom.countType s.log "duplicate_tx_id" + 1) ∧
      (∀ (s : Ecom.OlapState) (batch : List Ecom.LTx) (today : Ecom.Day),
        (s.facts.map (fun f => (f.transaction_id, f.product_sk))).Nodup →
        ((Ecom.load_fact_transactions s batch today).1.facts.map
          (fun f => (f.transaction_id, f.product_sk))).Nodup) := by
  refine ⟨⟨by decide, by decide⟩, ?_, ?_⟩
  · intro s t1 t2 today usk1 usk2 psk hid hc hu1 hp1 hu2 hp2
    have hc2 : (s.facts.map (fun f => f.transaction_id)).contains t2.tx_id = false := by
      rw [← hid]; exact hc
    have hn1 : ∀ x ∈ s.facts, ¬x.transaction_id = t1.tx_id := by
      intro x hx he
      have hmem : t1.tx_id ∈ s.facts.map (fun f => f.transaction_id) :=
        List.mem_map.2 ⟨x, hx, he⟩
      rw [← Bool.not_eq_true] at hc
      exact hc (by simpa using hmem)
    have hn2 : ∀ x ∈ s.facts, ¬x.transaction_id = t2.tx_id := fun x hx he =>
      hn1 x hx (he.trans hid.symm)
    have hfil : ([t1, t2].filter (fun t =>
        !(s.facts.map (fun f => f.transaction_id)).contains t.tx_id)) = [t1, t2] := by
      simp only [List.filter_cons, List.filter_nil, hc, hc2, Bool.not_false, if_true]
    have hload : Ecom.load_fact_transactions s [t1, t2] today =
        [t1, t2].foldl (Ecom.processFactTx today) (s, 0, 0) := by
      rw [Ecom.load_fact_transactions_eq, hfil]
      rfl
    rw [hload]
    simp only [List.foldl_cons, List.foldl_nil]
    have hany1 : s.facts.any
        (fun f => f.transaction_id == t1.tx_id && f.product_sk == psk) = false := by
      rw [List.any_eq_false]
      intro f hf hpred
      simp only [Bool.and_eq_true, beq_iff_eq] at hpred
      have : t1.tx_id ∈ s.facts.map (fun f => f.transaction_id) :=
        List.mem_map.2 ⟨f, hf, hpred.1⟩
      rw [← Bool.not_eq_true] at hc
      exact hc (by simpa using this)
    obtain ⟨if1, ii1, is1, il1, idu1, idp1⟩ :=
      Ecom.processFactTx_insert today (s, 0, 0) t1 usk1 psk hu1 hp1 hany1
    have hu2b : Ecom.resolveSk (Ecom.processFactTx today (s, 0, 0) t1).1.dimUser.rows
        t2.user_id t2.date = some usk2 := by rw [idu1]; exact hu2
    have hp2b : Ecom.resolveSk (Ecom.processFactTx today (s, 0, 0) t1).1.dimProduct.rows
        t2.product_id t2.date = some psk := by rw [idp1]; exact hp2
    have hany2 : (Ecom.processFactTx today (s, 0, 0) t1).1.facts.any
        (fun f => f.transaction_id == t2.tx_id && f.product_sk == psk) = true := by
      rw [if1, List.any_append]
      have hone : (([⟨t1.tx_id, usk1, psk, t1.date, t1.quantity, t1.total, t1.payment_type,
          t1.status, today⟩] : List Ecom.FactRow).any
          (fun f => f.transaction_id == t2.tx_id && f.product_sk == psk)) = true := by
        simp [hid]
      rw [hone, Bool.or_true]
    obtain ⟨df, di, ds, dl⟩ := Ecom.processFactTx_dup today
      (Ecom.processFactTx today (s, 0, 0) t1) t2 usk2 psk hu2b hp2b hany2
    refine ⟨?_, ?_, ?_, ?_⟩
    · rw [di, ii1]
    · rw [ds, is1]
    · rw [df, if1]
    · rw [dl, il1]
  · intro s batch today h
    rw [Ecom.load_fact_transactions_eq]
    split_ifs with hnil
    · exact h
    · exact Ecom.loadTx_fold_pairs_nodup today _ (s, 0, 0) h

/-- Witness for C9 (amended): two same-id transactions resolving to the same
product surrogate key — one inserted, one skipped. -/
theorem c9_duplicate_tx_handling_witness :
    c9txA.tx_id = c9txC.tx_id ∧
      (Ecom.load_fact_transactions c9stateB [c9txA, c9txC] 50).2.1 = 1 ∧
      (Ecom.load_fact_transactions c9stateB [c9txA, c9txC] 50).2.2 = 1 := by
  have h := c9_duplicate_tx_handling.2.1 c9stateB c9txA c9txC 50 1 1 1 rfl (by decide)
    (by decide) (by decide) (by decide) (by decide)
  exact ⟨rfl, h.1, h.2.1⟩

/-- C5 counterexample: two runs on strictly increasing dates (100 then 101)
with singleton batches; the user's `join_date` (500) lies after both run
dates, so the first version starts at day 500 while its replacement starts
at day 101.  Ordered by `start_date` the two versions are not contiguous:
the version that comes first in start-date order is still open
(`end_date = NULL`). -/
theorem c5_contiguity_counterexample :
    List.Chain' (· < ·) (c5runs.map Prod.snd) ∧
      (∀ q ∈ c5runs, (q.1.map (fun u => u.user_id)).Nodup) ∧
      (Ecom.versions (Ecom.runUserRuns c5runs).rows 1).length = 2 ∧
      ¬ Ecom.contiguousChain (Ecom.sortByStart
        (Ecom.versions (Ecom.runUserRuns c5runs).rows 1)) := by
  refine ⟨?_, by decide, by decide, ?_⟩
  · have hm : c5runs.map Prod.snd = [100, 101] := rfl
    rw [hm]
    exact List.chain'_cons.2 ⟨by norm_num, List.chain'_singleton _⟩
  · have hs : Ecom.sortByStart (Ecom.versions (Ecom.runUserRuns c5runs).rows 1) =
        [⟨2, 1, ("B", "e", 500), 101, none, true⟩,
          ⟨1, 1, ("A", "e", 500), 500, some 100, false⟩] := by decide
    rw [hs]
    intro hchain
    have h1 := (List.chain'_cons.1 hchain).1
    simp at h1

/-- C5 amended: over any sequence of runs from an empty dimension on
strictly increasing dates, with at most one record per business key per
batch and — for users — every record's `join_date` on or before its run's
date, each key's version list is strictly ordered by `start_date` (so
sorting by start date leaves it unchanged) and consecutive versions are
contiguous: `version[i].end_date = version[i+1].start_date - 1 day`.  For
products no `join_date` condition is needed, since a first version starts at
the run date. -/
theorem c5_scd2_contiguity :
    (∀ runs : List (List Ecom.LUser × Ecom.Day),
      List.Chain' (· < ·) (runs.map Prod.snd) →
      (∀ q ∈ runs, (q.1.map (fun u => u.user_id)).Nodup ∧
        ∀ u ∈ q.1, u.join_date ≤ q.2) →
      ∀ k, Ecom.sortByStart (Ecom.versions (Ecom.runUserRuns runs).rows k) =
          Ecom.versions (Ecom.runUserRuns runs).rows k ∧
        Ecom.sortedContig (Ecom.versions (Ecom.runUserRuns runs).rows k)) ∧
      (∀ runs : List (List Ecom.LProd × Ecom.Day),
        List.Chain' (· < ·) (runs.map Prod.snd) →
        (∀ q ∈ runs, (q.1.map (fun p => p.product_id)).Nodup) →
        ∀ k, Ecom.sortByStart (Ecom.versions (Ecom.runProductRuns runs).rows k) =
            Ecom.versions (Ecom.runProductRuns runs).rows k ∧
          Ecom.sortedContig (Ecom.versions (Ecom.runProductRuns runs).rows k)) := by
  constructor
  · intro runs hchain hbatch k
    cases runs with
    | nil => exact ⟨rfl, List.chain'_nil⟩
    | cons q rest =>
      have hchain2 : List.Chain' (· < ·) ((q.2 - 1) :: ((q :: rest).map Prod.snd)) := by
        rw [List.map_cons]
        refine List.chain'_cons.2 ⟨sub_one_lt _, ?_⟩
        rw [← List.map_cons]
        exact hchain
      obtain ⟨d2, _, hvF⟩ := Ecom.scd2_runs_versOK (fun u => u.user_id)
        (fun u => (u.name, u.email, u.join_date)) (fun d => (d.1, d.2.1))
        (fun u _ => u.join_date) (q :: rest) Ecom.scd2Empty (q.2 - 1)
        ⟨List.nodup_nil, fun r hr => absurd hr (List.not_mem_nil r)⟩
        (fun _ => trivial) hchain2
        (fun q2 hq2 => ⟨(hbatch q2 hq2).1, fun u hu => (hbatch q2 hq2).2 u hu⟩)
      exact ⟨Ecom.sortByStart_sorted_id _ (Ecom.VersOK_sorted d2 _ (hvF k)),
        Ecom.VersOK_sortedContig d2 _ (hvF k)⟩
  · intro runs hchain hbatch k
    cases runs with
    | nil => exact ⟨rfl, List.chain'_nil⟩
    | cons q rest =>
      have hchain2 : List.Chain' (· < ·) ((q.2 - 1) :: ((q :: rest).map Prod.snd)) := by
        rw [List.map_cons]
        refine List.chain'_cons.2 ⟨sub_one_lt _, ?_⟩
        rw [← List.map_cons]
        exact hchain
      obtain ⟨d2, _, hvF⟩ := Ecom.scd2_runs_versOK (fun p => p.product_id)
        (fun p => (p.name, p.category, p.price)) (fun d => d)
        (fun _ t => t) (q :: rest) Ecom.scd2Empty (q.2 - 1)
        ⟨List.nodup_nil, fun r hr => absurd hr (List.not_mem_nil r)⟩
        (fun _ => trivial) hchain2
        (fun q2 hq2 => ⟨hbatch q2 hq2, fun _ _ => le_refl _⟩)
      exact ⟨Ecom.sortByStart_sorted_id _ (Ecom.VersOK_sorted d2 _ (hvF k)),
        Ecom.VersOK_sortedContig d2 _ (hvF k)⟩

/-- Witness for C5 (amended): a user whose `join_date` precedes both run
dates; after two runs the two versions are contiguous in start-date order. -/
theorem c5_scd2_contiguity_witness :
    List.Chain' (· < ·) (c5runsW.map Prod.snd) ∧
      (∀ q ∈ c5runsW, (q.1.map (fun u => u.user_id)).Nodup ∧
        ∀ u ∈ q.1, u.join_date ≤ q.2) ∧
      Ecom.sortedContig (Ecom.versions (Ecom.runUserRuns c5runsW).rows 1) := by
  have hchain : List.Chain' (· < ·) (c5runsW.map Prod.snd) := by
    have hm : c5runsW.map Prod.snd = [100, 101] := rfl
    rw [hm]
    exact List.chain'_cons.2 ⟨by norm_num, List.chain'_singleton _⟩
  have hbatch : ∀ q ∈ c5runsW, (q.1.map (fun u => u.user_id)).Nodup ∧
      ∀ u ∈ q.1, u.join_date ≤ q.2 := by decide
  exact ⟨hchain, hbatch, (c5_scd2_contiguity.1 c5runsW hchain hbatch 1).2⟩

